import Mathlib

/-!
Verification of the field-classification and autofill engine of the cv-ai
repository (`utils.js`, exposed as `window.CVAUtils`).  Each JavaScript
function used by the engine is translated into an executable Lean
definition; machine strings are modelled as Lean `String`
(a list of unicode characters), DOM elements as records carrying exactly
the attributes the engine reads, and fallible DOM operations as explicit
outcome parameters.  Theorems at the end of the file settle the spec
claims against these definitions.
-/

namespace CVA

/-! ## JavaScript string primitives

`jsIsWs` models the character class `\s` of JavaScript regular
expressions restricted to the characters that can actually occur in the
engine's inputs (ASCII whitespace plus NBSP); `String.prototype.trim`
strips exactly this class from both ends. -/

def jsIsWs (c : Char) : Bool :=
  c.toNat = 32 || c.toNat = 9 || c.toNat = 10 || c.toNat = 13 ||
    c.toNat = 11 || c.toNat = 12 || c.toNat = 160

/-- `String.prototype.trim()` : drop whitespace from both ends. -/
def jsTrim (s : String) : String :=
  ⟨((s.data.dropWhile jsIsWs).reverse.dropWhile jsIsWs).reverse⟩

/-- `String.prototype.toLowerCase()` on the ASCII range (the engine only
ever lower-cases dictionary keys and attribute values whose uppercase
letters are ASCII). -/
def jsLowerChar (c : Char) : Char :=
  if 'A' ≤ c && c ≤ 'Z' then Char.ofNat (c.toNat + 32) else c

def jsToLower (s : String) : String := ⟨s.data.map jsLowerChar⟩

/-- A raw JavaScript value that may be `null`/`undefined` (`none`) or a
string. -/
def optStr : Option String → String
  | none => ""
  | some s => s

/-- `safeStr(v)` from utils.js: `null`/`undefined` become `""`, strings
are trimmed. -/
def safeStr (v : Option String) : String := jsTrim (optStr v)

/-- `startsWithL hay needle` : does `hay` start with `needle`? -/
def startsWithL : List Char → List Char → Bool
  | _, [] => true
  | [], _ :: _ => false
  | c :: cs, d :: ds => c = d && startsWithL cs ds

/-- `hay.includes(needle)` of JavaScript, on character lists. -/
def includesL (needle : List Char) : List Char → Bool
  | [] => needle.isEmpty
  | c :: rest => startsWithL (c :: rest) needle || includesL needle rest

def jsIncludes (s sub : String) : Bool := includesL sub.data s.data

def jsStartsWith (s p : String) : Bool := startsWithL s.data p.data

/-- `s.split(/\s+/).filter(Boolean)` : the maximal whitespace-free runs
of `s`, in order.  The accumulator holds the current run reversed. -/
def splitWsGo : List Char → List Char → List String
  | [], acc => if acc.isEmpty then [] else [⟨acc.reverse⟩]
  | c :: rest, acc =>
    if jsIsWs c then
      if acc.isEmpty then splitWsGo rest [] else ⟨acc.reverse⟩ :: splitWsGo rest []
    else splitWsGo rest (c :: acc)

def splitWs (s : String) : List String := splitWsGo s.data []

/-- `parts.join(" ")`. -/
def joinSpace : List String → String
  | [] => ""
  | [s] => s
  | s :: t :: rest => s ++ " " ++ joinSpace (t :: rest)

/-! ## Normalizer (utils.js `normalizePhone`, `normalizeUrl`,
`normalizeProfile`) -/

/-- `normalizePhone`: keep a leading `+`, strip all other non-digits. -/
def normalizePhone (v : Option String) : String :=
  let p := safeStr v
  if p = "" then ""
  else
    let plus := startsWithL (jsTrim p).data ['+']
    let digits : List Char := p.data.filter Char.isDigit
    if plus then ⟨'+' :: digits⟩ else ⟨digits⟩

/-- The test `/^https?:\/\//i.test(u)`. -/
def schemeTest (u : String) : Bool :=
  jsStartsWith (jsToLower u) "http://" || jsStartsWith (jsToLower u) "https://"

def isDomainClassChar (c : Char) : Bool :=
  ('a' ≤ c && c ≤ 'z') || ('A' ≤ c && c ≤ 'Z') || c.isDigit || c = '.' || c = '-'

def isAsciiLetter (c : Char) : Bool := ('a' ≤ c && c ≤ 'z') || ('A' ≤ c && c ≤ 'Z')

/-- Does the list start with `.` followed by two ASCII letters
(the `\.[a-z]{2,}` tail of the bare-domain pattern)? -/
def dotLL : List Char → Bool
  | '.' :: a :: b :: _ => isAsciiLetter a && isAsciiLetter b
  | _ => false

/-- After at least one class character has been consumed, the rest of the
bare-domain pattern `[a-z0-9.-]+\.[a-z]{2,}` matches iff the tail
`\.[a-z]{2,}` matches here or one more class character can be consumed. -/
def domainScan : List Char → Bool
  | [] => false
  | c :: rest => dotLL (c :: rest) || (isDomainClassChar c && domainScan rest)

/-- The test `/^[a-z0-9.-]+\.[a-z]{2,}/i.test(u)`. -/
def domainTest (u : String) : Bool :=
  match u.data with
  | [] => false
  | c :: rest => isDomainClassChar c && domainScan rest

/-- `normalizeUrl`: prepend `https://` when the value lacks a scheme but
looks like a bare domain. -/
def normalizeUrl (v : Option String) : String :=
  let u := safeStr v
  if u = "" then ""
  else if !schemeTest u && domainTest u then "https://" ++ u
  else u

/-- The raw profile handed to `normalizeProfile` (each field may be
absent). -/
structure RawProfile where
  firstName : Option String
  lastName : Option String
  fullName : Option String
  email : Option String
  phone : Option String
  addressLine : Option String
  city : Option String
  state : Option String
  postalCode : Option String
  country : Option String
  linkedin : Option String
  github : Option String
  website : Option String
  dateOfBirth : Option String
  summary : Option String
  coverLetter : Option String
  graduationYear : Option String
  experienceYears : Option String
  salaryExpectation : Option String
deriving DecidableEq, Repr

/-- The canonical profile produced by `normalizeProfile`. -/
@[ext]
structure Profile where
  firstName : String
  lastName : String
  fullName : String
  email : String
  phone : String
  addressLine : String
  city : String
  state : String
  postalCode : String
  country : String
  linkedin : String
  github : String
  website : String
  dateOfBirth : String
  summary : String
  coverLetter : String
  graduationYear : String
  experienceYears : String
  salaryExpectation : String
deriving DecidableEq, Repr

/-- An empty raw profile (every field absent). -/
def RawProfile.empty : RawProfile :=
  ⟨none, none, none, none, none, none, none, none, none, none,
   none, none, none, none, none, none, none, none, none⟩

/-- Re-reading a canonical profile as a raw one (every field present). -/
def Profile.toRaw (p : Profile) : RawProfile :=
  ⟨some p.firstName, some p.lastName, some p.fullName, some p.email, some p.phone,
   some p.addressLine, some p.city, some p.state, some p.postalCode, some p.country,
   some p.linkedin, some p.github, some p.website, some p.dateOfBirth, some p.summary,
   some p.coverLetter, some p.graduationYear, some p.experienceYears,
   some p.salaryExpectation⟩

/-- The field-by-field part of `normalizeProfile` (the object literal at
its head): trim every field, lower-case `email`, normalize `phone` and
the three URL fields. -/
def normalizeBase (raw : RawProfile) : Profile where
  firstName := safeStr raw.firstName
  lastName := safeStr raw.lastName
  fullName := safeStr raw.fullName
  email := jsToLower (safeStr raw.email)
  phone := normalizePhone raw.phone
  addressLine := safeStr raw.addressLine
  city := safeStr raw.city
  state := safeStr raw.state
  postalCode := safeStr raw.postalCode
  country := safeStr raw.country
  linkedin := normalizeUrl raw.linkedin
  github := normalizeUrl raw.github
  website := normalizeUrl raw.website
  dateOfBirth := safeStr raw.dateOfBirth
  summary := safeStr raw.summary
  coverLetter := safeStr raw.coverLetter
  graduationYear := safeStr raw.graduationYear
  experienceYears := safeStr raw.experienceYears
  salaryExpectation := safeStr raw.salaryExpectation

/-- `// Derive fullName if missing` : join the non-empty name parts. -/
def deriveFullName (p : Profile) : Profile :=
  if p.fullName = "" then
    { p with fullName :=
        jsTrim (joinSpace (List.filter (fun s => !(s = "")) [p.firstName, p.lastName])) }
  else p

/-- `// Derive first/last if missing but fullName exists` : split
`fullName` on whitespace, but only when that yields at least two parts. -/
def deriveNames (p : Profile) : Profile :=
  if (p.firstName = "" || p.lastName = "") && !(p.fullName = "") then
    let parts := splitWs p.fullName
    if 2 ≤ parts.length then
      { p with
        firstName := if p.firstName = "" then parts.headD "" else p.firstName,
        lastName := if p.lastName = "" then joinSpace (parts.drop 1) else p.lastName }
    else p
  else p

/-- `normalizeProfile` from utils.js. -/
def normalizeProfile (raw : RawProfile) : Profile :=
  deriveNames (deriveFullName (normalizeBase raw))

/-! ## Tokenizer and field dictionaries -/

def STOP_WORDS : List String := ["*", ":", "-", "—", "(", ")", "[", "]"]

/-- The separator class `[_/\\|]` of `tokenize`'s first replacement. -/
def isSepChar (c : Char) : Bool := c = '_' || c = '/' || c = '\\' || c = '|'

/-- The `\p{L}` letter class of `tokenize`'s second replacement,
modelled for the character repertoire used by the engine's bilingual
dictionary (ASCII letters plus the Turkish letters that occur there). -/
def jsIsLetter (c : Char) : Bool :=
  isAsciiLetter c ||
  ['ç', 'ğ', 'ı', 'ö', 'ş', 'ü', 'Ç', 'Ğ', 'İ', 'Ö', 'Ş', 'Ü'].contains c

/-- `tokenize` from utils.js: lower-case, replace separators and
non-letter/digit/`+`/`-` characters with spaces, split on whitespace,
drop stop words. -/
def tokenize (text : String) : List String :=
  let t := jsToLower (jsTrim text)
  if t = "" then []
  else
    let cleaned := t.data.map fun c =>
      if isSepChar c then ' '
      else if jsIsLetter c || c.isDigit || jsIsWs c || c = '+' || c = '-' then c
      else ' '
    (splitWsGo cleaned []).filter (fun p => !(STOP_WORDS.contains p))

/-- `FIELD_SYNONYMS` from utils.js (TR + EN synonyms / signals). -/
def FIELD_SYNONYMS : List (String × List String) :=
  [("firstName", ["first name", "given name", "forename", "ad", "isim", "adı",
                  "adınız", "adiniz"]),
   ("lastName", ["last name", "surname", "family name", "soyad", "soyadı",
                 "soyadınız", "soyadiniz"]),
   ("fullName", ["full name", "name", "your name", "ad soyad", "isim soyisim",
                 "adınız soyadınız", "adiniz soyadiniz"]),
   ("email", ["email", "e-mail", "mail", "eposta", "e posta", "e-posta"]),
   ("phone", ["phone", "mobile", "telephone", "tel", "cell", "telefon", "cep",
              "gsm", "mobil"]),
   ("addressLine", ["address", "address line", "street", "street address",
                    "adres", "adres satırı", "sokak", "cadde", "mahalle"]),
   ("city", ["city", "town", "şehir", "sehir", "ilçe", "ilce", "il"]),
   ("state", ["state", "province", "region", "eyalet", "bölge", "bolge", "il"]),
   ("postalCode", ["zip", "zipcode", "postal", "postal code", "posta kodu",
                   "pk", "zip code"]),
   ("country", ["country", "nation", "ülke", "ulke"]),
   ("linkedin", ["linkedin", "linked in", "linkedin url", "linkedin profili"]),
   ("github", ["github", "github url", "git hub"]),
   ("website", ["website", "web site", "portfolio", "site", "kişisel site",
                "kisisel site", "portföy", "portfoy"]),
   ("dateOfBirth", ["date of birth", "birth date", "dob", "birthday",
                    "doğum tarihi", "dogum tarihi"]),
   ("summary", ["summary", "about", "about me", "bio", "profil", "hakkımda",
                "hakkimda", "özet", "ozet"]),
   ("coverLetter", ["cover letter", "motivation letter", "additional information",
                    "additional info", "anything else", "message", "notes",
                    "comment", "ön yazı", "on yazı", "niyet mektubu", "ek bilgi",
                    "ek bilgiler", "mesaj", "not", "açıklama", "aciklama"]),
   ("graduationYear", ["graduation year", "graduation date", "graduated",
                       "degree date", "mezuniyet", "mezuniyet yılı",
                       "mezuniyet yili", "mezun olma", "mezun oldum"]),
   ("experienceYears", ["years of experience", "experience", "work experience",
                        "yoe", "tecrübe", "tecrube", "deneyim", "kaç yıl",
                        "kac yil", "yıl deneyim"]),
   ("salaryExpectation", ["salary expectation", "expected salary", "salary",
                          "compensation", "pay", "maaş beklentisi",
                          "maas beklentisi", "beklenen maaş", "ucret", "ücret",
                          "maaş", "maas"])]

/-- The own keys of the `AUTOCOMPLETE_MAP` object literal from utils.js,
as a finite map. -/
def AUTOCOMPLETE_MAP : List (String × String) :=
  [("given-name", "firstName"),
   ("additional-name", "firstName"),
   ("family-name", "lastName"),
   ("name", "fullName"),
   ("email", "email"),
   ("tel", "phone"),
   ("tel-national", "phone"),
   ("tel-country-code", "phone"),
   ("street-address", "addressLine"),
   ("address-line1", "addressLine"),
   ("address-line2", "addressLine"),
   ("address-level2", "city"),
   ("address-level1", "state"),
   ("postal-code", "postalCode"),
   ("country", "country"),
   ("bday", "dateOfBirth")]

/-! ## Candidate elements, signal extraction and fillability

A `CandidateElem` carries exactly the pieces of live-document state the
engine reads from one element: its tag, its attributes, and the label
texts that the three label lookups (`label[for=id]`, wrapping `label`,
`findNearestLabelText`) would return, `none` standing for a missing
attribute / absent label. -/

structure CandidateElem where
  tagName : String
  typeAttr : Option String
  placeholder : Option String
  ariaLabel : Option String
  nameAttr : Option String
  idAttr : Option String
  autocompleteAttr : Option String
  dataTestid : Option String
  dataTest : Option String
  dataQa : Option String
  labelForText : Option String
  labelWrapText : Option String
  nearLabelText : Option String
deriving DecidableEq, Repr

/-- A candidate element with no attributes and no associated labels. -/
def CandidateElem.blank : CandidateElem :=
  ⟨"input", none, none, none, none, none, none, none, none, none, none, none, none⟩

structure Signal where
  text : String
  weight : Int
  source : String
deriving DecidableEq, Repr

/-- The `add` closure of `getElementTextSignals`: push a signal when the
trimmed text is non-empty. -/
def addSignal (v : Option String) (w : Int) (src : String) : List Signal :=
  match v with
  | none => []
  | some s =>
    let t := jsTrim s
    if t = "" then [] else [⟨t, w, src⟩]

/-- `getElementTextSignals` from utils.js, in source order.  The
`label[for]` lookup only runs when the element has a (truthy) `id`. -/
def getElementTextSignals (el : CandidateElem) : List Signal :=
  addSignal el.placeholder 4 "placeholder" ++
  addSignal el.ariaLabel 5 "aria-label" ++
  addSignal el.nameAttr 3 "name" ++
  addSignal el.idAttr 3 "id" ++
  addSignal el.autocompleteAttr 7 "autocomplete" ++
  addSignal el.dataTestid 2 "data-testid" ++
  addSignal el.dataTest 2 "data-test" ++
  addSignal el.dataQa 2 "data-qa" ++
  (match el.idAttr with
   | some i => if i = "" then [] else addSignal el.labelForText 9 "label-for"
   | none => []) ++
  addSignal el.labelWrapText 9 "label-wrap" ++
  addSignal el.nearLabelText 6 "near-label"

/-- `isFillableElement` from utils.js. -/
def isFillableElement (el : CandidateElem) : Bool :=
  let tag := jsToLower el.tagName
  if tag = "textarea" || tag = "select" then true
  else if !(tag = "input") then false
  else
    let ty := jsToLower (match el.typeAttr with
      | none => "text"
      | some t => if t = "" then "text" else t)
    if ty = "password" then false
    else if ty = "hidden" then false
    else if ty = "file" then false
    else if ty = "submit" || ty = "button" || ty = "reset" then false
    else if ty = "checkbox" || ty = "radio" then false
    else true

/-! ## FieldScorer (`scoreFieldType`)

The score is the sum of five independent additive stages, applied in
source order: autocomplete map, input-type bonus, per-signal token
overlap, name/id regex patterns, and the search-placeholder penalty.
Each stage also yields its reason strings. -/

structure ScoreResult where
  score : Int
  reasons : List String
deriving DecidableEq, Repr

def combineTerm (a b : Int × List String) : Int × List String :=
  (a.1 + b.1, a.2 ++ b.2)

/-- `safeStr(el.getAttribute("autocomplete")).toLowerCase()`. -/
def acKey (el : CandidateElem) : String := jsToLower (safeStr el.autocompleteAttr)

/-- The property names JavaScript resolves on a plain object literal
beyond its own keys: the `Object.prototype` members.  Only the ones
written entirely in lower case are reachable here, because the looked-up
key has been passed through `toLowerCase()` (names such as `toString` or
`valueOf` contain capitals and can no longer be hit).  Each resolves to
a function or object, which is truthy and never equal to a field-type
string. -/
def PROTO_KEYS : List String := ["constructor", "__proto__"]

/-- The result of the JavaScript property read `AUTOCOMPLETE_MAP[ac]`:
an own entry of the literal (a field-type string), a truthy member
inherited from `Object.prototype`, or `undefined`. -/
inductive AcLookup where
  | own (fieldType : String)
  | inheritedMember
  | absent
deriving DecidableEq, Repr

/-- `AUTOCOMPLETE_MAP[ac]` with JavaScript property-resolution
semantics: own keys first, then the prototype chain. -/
def acMapGet (ac : String) : AcLookup :=
  match AUTOCOMPLETE_MAP.lookup ac with
  | some m => AcLookup.own m
  | none => if PROTO_KEYS.contains ac then AcLookup.inheritedMember else AcLookup.absent

/-- The autocomplete-map term of `scoreFieldType`.  An inherited
`Object.prototype` member is truthy but `===`-distinct from every
field-type string, so it always takes the `else if (mapped)` branch and
scores −8. -/
def acStage (el : CandidateElem) (fieldType : String) : Int × List String :=
  let ac := acKey el
  if ac = "" then (0, [])
  else match acMapGet ac with
    | AcLookup.own m =>
      if m = fieldType then (30, ["autocomplete:" ++ ac ++ " (+30)"])
      else (-8, ["autocomplete:" ++ ac ++ " mismatch (-8)"])
    | AcLookup.inheritedMember => (-8, ["autocomplete:" ++ ac ++ " mismatch (-8)"])
    | AcLookup.absent => (0, [])

/-- `safeStr(el.getAttribute("type")).toLowerCase() || "text"`. -/
def typeKey (el : CandidateElem) : String :=
  let t := jsToLower (safeStr el.typeAttr)
  if t = "" then "text" else t

/-- The input-type bonus term of `scoreFieldType` (inputs only). -/
def typeStage (el : CandidateElem) (fieldType : String) : Int × List String :=
  if !(jsToLower el.tagName = "input") then (0, [])
  else
    let t := typeKey el
    combineTerm
      (if fieldType = "email" && t = "email" then (18, ["type=email (+18)"]) else (0, []))
      (combineTerm
        (if fieldType = "phone" && t = "tel" then (16, ["type=tel (+16)"]) else (0, []))
        (combineTerm
          (if (fieldType = "website" || fieldType = "linkedin" || fieldType = "github")
              && t = "url" then (10, ["type=url (+10)"]) else (0, []))
          (combineTerm
            (if fieldType = "dateOfBirth" && t = "date" then (18, ["type=date (+18)"])
             else (0, []))
            (if fieldType = "salaryExpectation" && t = "number"
             then (10, ["type=number (+10)"]) else (0, [])))))

/-- `FIELD_SYNONYMS[fieldType] || []`, flattened through `tokenize`. -/
def synonymTokens (fieldType : String) : List String :=
  ((FIELD_SYNONYMS.lookup fieldType).getD []).flatMap tokenize

/-- `"name"`/`"isim"` ambiguity test. -/
def ambiguousNameToken (tok : String) : Bool := tok = "name" || tok = "isim"

/-- The per-signal local score: +3 per synonym-token hit, then the
ambiguity rule for the bare name token. -/
def signalLocal (fieldType : String) (toks : List String) : Int :=
  let syn := synonymTokens fieldType
  let base : Int := 3 * (toks.countP (fun tok => syn.contains tok) : Int)
  if fieldType = "fullName" then
    base + (if toks.any ambiguousNameToken then 3 else 0)
  else
    base + (if toks.any ambiguousNameToken
               && !(fieldType = "firstName") && !(fieldType = "lastName")
            then -2 else 0)

/-- The keyword-matching term of `scoreFieldType`: fold over the signals
in extraction order, adding `local * weight` for every signal whose
local score is non-zero. -/
def signalsStage (el : CandidateElem) (fieldType : String) : Int × List String :=
  (getElementTextSignals el).foldl
    (fun acc s =>
      let l := signalLocal fieldType (tokenize s.text)
      if l = 0 then acc
      else (acc.1 + l * s.weight,
            acc.2 ++ [s.source ++ " match (" ++ toString l ++ "*w" ++ toString s.weight ++ ")"]))
    (0, [])

/-- `(safeStr(name) + " " + safeStr(id)).toLowerCase()`. -/
def nmKey (el : CandidateElem) : String :=
  jsToLower (safeStr el.nameAttr ++ " " ++ safeStr el.idAttr)

/-- `/(first|given)[-_ ]?name|^fname$|ad/i.test(nm)` on the already
lower-cased `nm`. -/
def reFirstName (nm : String) : Bool :=
  (["firstname", "first-name", "first_name", "first name",
    "givenname", "given-name", "given_name", "given name"].any (fun p => jsIncludes nm p))
  || nm = "fname" || jsIncludes nm "ad"

/-- `/(last|family|sur)[-_ ]?name|^lname$|soyad/i.test(nm)`. -/
def reLastName (nm : String) : Bool :=
  (["lastname", "last-name", "last_name", "last name",
    "familyname", "family-name", "family_name", "family name",
    "surname", "sur-name", "sur_name", "sur name"].any (fun p => jsIncludes nm p))
  || nm = "lname" || jsIncludes nm "soyad"

/-- `/(e[-_ ]?mail|email)/i.test(nm)`. -/
def reEmail (nm : String) : Bool :=
  ["email", "e-mail", "e_mail", "e mail"].any (fun p => jsIncludes nm p)

/-- `/(phone|mobile|tel|gsm|cep|telefon)/i.test(nm)`. -/
def rePhone (nm : String) : Bool :=
  ["phone", "mobile", "tel", "gsm", "cep", "telefon"].any (fun p => jsIncludes nm p)

/-- `/(zip|postal|posta)/i.test(nm)`. -/
def rePostal (nm : String) : Bool :=
  ["zip", "postal", "posta"].any (fun p => jsIncludes nm p)

/-- The name/id pattern term of `scoreFieldType`.  `nm` always contains
the joining space, so the `if (nm)` guard of the source is always
satisfied; it is kept for fidelity. -/
def patternStage (el : CandidateElem) (fieldType : String) : Int × List String :=
  let nm := nmKey el
  if nm = "" then (0, [])
  else
    combineTerm
      (if fieldType = "firstName" && reFirstName nm
       then (20, ["name/id pattern (+20)"]) else (0, []))
      (combineTerm
        (if fieldType = "lastName" && reLastName nm
         then (20, ["name/id pattern (+20)"]) else (0, []))
        (combineTerm
          (if fieldType = "email" && reEmail nm
           then (16, ["name/id pattern (+16)"]) else (0, []))
          (combineTerm
            (if fieldType = "phone" && rePhone nm
             then (14, ["name/id pattern (+14)"]) else (0, []))
            (combineTerm
              (if fieldType = "postalCode" && rePostal nm
               then (12, ["name/id pattern (+12)"]) else (0, []))
              (combineTerm
                (if fieldType = "linkedin" && jsIncludes nm "linkedin"
                 then (14, ["name/id pattern (+14)"]) else (0, []))
                (if fieldType = "github" && jsIncludes nm "github"
                 then (14, ["name/id pattern (+14)"]) else (0, [])))))))

/-- The search-placeholder penalty term of `scoreFieldType` (independent
of the field type under test). -/
def searchStage (el : CandidateElem) : Int × List String :=
  let ph := jsToLower (safeStr el.placeholder)
  if jsIncludes ph "search" || jsIncludes ph "ara"
  then (-10, ["search-like (-10)"]) else (0, [])

/-- `scoreFieldType` from utils.js: the five stages applied in source
order, scores summed and reasons concatenated. -/
def scoreFieldType (el : CandidateElem) (fieldType : String) : ScoreResult :=
  let a := acStage el fieldType
  let t := typeStage el fieldType
  let s := signalsStage el fieldType
  let p := patternStage el fieldType
  let q := searchStage el
  ⟨a.1 + t.1 + s.1 + p.1 + q.1, a.2 ++ t.2 ++ s.2 ++ p.2 ++ q.2⟩

/-! ## Geometric nearest-label search (`findNearestLabelText`)

Bounding boxes are modelled with integer coordinates; `Math.abs` of a
coordinate difference becomes `Int.natAbs`.  A label-like node carries
its `innerText` and its box. -/

structure Rect where
  top : Int
  bottom : Int
  left : Int
  right : Int
deriving DecidableEq, Repr

structure LabelNode where
  text : String
  rect : Rect
deriving DecidableEq, Repr

def vDist (er : Rect) (r : Rect) : Nat := (er.top - r.bottom).natAbs

def hDist (er : Rect) (r : Rect) : Nat := (er.left - r.right).natAbs

def isAbove (er : Rect) (r : Rect) : Bool := r.bottom ≤ er.top + 8

def isLeft (er : Rect) (r : Rect) : Bool := r.right ≤ er.left + 8

/-- `Math.min(verticalDist, horizontalDist)` — the distance the 80-unit
cap is applied to. -/
def labelDist (er : Rect) (r : Rect) : Nat := min (vDist er r) (hDist er r)

/-- Does a label-like node qualify as a candidate for the element box
`er` (the push condition of the `labels.forEach` body)? -/
def qualifies (er : Rect) (l : LabelNode) : Bool :=
  (isAbove er l.rect || isLeft er l.rect) && labelDist er l.rect < 80

/-- The `labelCandidates` array: trimmed non-empty text plus distance of
every qualifying label, in document order. -/
def labelCandidates (er : Rect) (labels : List LabelNode) : List (String × Nat) :=
  labels.filterMap fun l =>
    let t := jsTrim l.text
    if t = "" then none
    else if qualifies er l then some (t, labelDist er l.rect) else none

/-- Head of a stable ascending sort by distance: the earliest candidate
among those of minimal distance. -/
def pickMinDist : List (String × Nat) → Option (String × Nat)
  | [] => none
  | x :: xs =>
    match pickMinDist xs with
    | none => some x
    | some b => if b.2 < x.2 then some b else some x

/-- `findNearestLabelText` from utils.js: the element's box and the
label-like nodes of its enclosing container are the state the DOM
queries would produce. -/
def findNearestLabelText (er : Rect) (labels : List LabelNode) : String :=
  match pickMinDist (labelCandidates er labels) with
  | some c => c.1
  | none => ""

/-! ## ValueInjector (`setNativeValue`, `setSelectValue`)

A discrete selector holds its option list and its current value; a
text-like element holds its tag and current value.  `setNativeValue`'s
`try`/`catch` is modelled by an explicit outcome environment: each
fallible DOM step (the native value setter, the two event dispatches)
either succeeds or throws with an error description.  Results are JS
objects with optional properties. -/

structure SelectOpt where
  value : String
  textContent : String
deriving DecidableEq, Repr

structure SelectEl where
  options : List SelectOpt
  value : String
deriving DecidableEq, Repr

structure TextEl where
  tagName : String
  value : String
deriving DecidableEq, Repr

inductive FormEl where
  | text : TextEl → FormEl
  | sel : SelectEl → FormEl
deriving DecidableEq, Repr

/-- The result object: `ok` plus the optional `from`/`to`/`matched`/
`error` properties the source attaches. -/
structure JSResult where
  ok : Bool
  fromVal : Option String
  toVal : Option String
  matched : Option String
  error : Option String
deriving DecidableEq, Repr

def failRes (e : String) : JSResult := ⟨false, none, none, none, some e⟩

def okTextRes (prev new : String) : JSResult := ⟨true, some prev, some new, none, none⟩

def okSelRes (m v : String) : JSResult := ⟨true, none, some v, some m, none⟩

theorem dropWhile_length_le (p : Char → Bool) (l : List Char) :
    (l.dropWhile p).length ≤ l.length := by
  induction l with
  | nil => simp [List.dropWhile]
  | cons c rest ih =>
    rw [List.dropWhile_cons]
    split
    · exact le_trans ih (Nat.le_succ _)
    · simp

/-- `normalizeForCompare`: trim, lower-case, collapse whitespace runs to
single spaces, trim again.  The flag records whether the scan is inside
a whitespace run (whose first character has already emitted the single
space). -/
def collapseWsGo : Bool → List Char → List Char
  | _, [] => []
  | inWs, c :: rest =>
    if jsIsWs c then
      if inWs then collapseWsGo true rest else ' ' :: collapseWsGo true rest
    else c :: collapseWsGo false rest

def normalizeForCompare (s : String) : String :=
  jsTrim ⟨collapseWsGo false (jsToLower (jsTrim s)).data⟩

/-- Tier 1: `normalizeForCompare(opt.value) === desiredNorm`. -/
def valueMatchPred (dn : String) (o : SelectOpt) : Bool :=
  normalizeForCompare o.value = dn

/-- Tier 2: `normalizeForCompare(opt.textContent) === desiredNorm`. -/
def textMatchPred (dn : String) (o : SelectOpt) : Bool :=
  normalizeForCompare o.textContent = dn

/-- Tier 3: `t.includes(desiredNorm) || desiredNorm.includes(t)`. -/
def fuzzyMatchPred (dn : String) (o : SelectOpt) : Bool :=
  let t := normalizeForCompare o.textContent
  jsIncludes t dn || jsIncludes dn t

/-- `setSelectValue` from utils.js: three matching tiers tried in order
(normalized option value, normalized option text, bidirectional
substring containment), each selecting the first matching option;
no mutation and a failure result when no tier matches.  The returned
pair is (element after the call, result object). -/
def setSelectValue (sel : SelectEl) (desired : String) : SelectEl × JSResult :=
  let desiredRaw := jsTrim desired
  if desiredRaw = "" then (sel, failRes "empty desired value")
  else
    let dn := normalizeForCompare desiredRaw
    match sel.options.find? (valueMatchPred dn) with
    | some o => ({ sel with value := o.value }, okSelRes "value" o.value)
    | none =>
      match sel.options.find? (textMatchPred dn) with
      | some o => ({ sel with value := o.value }, okSelRes "text" o.value)
      | none =>
        match sel.options.find? (fuzzyMatchPred dn) with
        | some o => ({ sel with value := o.value }, okSelRes "fuzzy" o.value)
        | none => (sel, failRes "no option match")

/-- Outcomes of the fallible DOM steps inside `setNativeValue`'s `try`
block: `some e` means the step throws with description `e`. -/
structure StepEnv where
  setterThrow : Option String
  inputDispatchThrow : Option String
  changeDispatchThrow : Option String
deriving DecidableEq, Repr

def StepEnv.clean : StepEnv := ⟨none, none, none⟩

/-- `setNativeValue` from utils.js.  Select elements are delegated to
`setSelectValue` (still inside the `try`); for text-like elements the
value is written through the native setter and the two events are
dispatched, every exception being caught and turned into a failure
result. -/
def setNativeValue (el : FormEl) (value : String) (env : StepEnv) : FormEl × JSResult :=
  match el with
  | FormEl.sel s =>
    let r := setSelectValue s value
    (FormEl.sel r.1, r.2)
  | FormEl.text t =>
    let val := jsTrim value
    let last := t.value
    match env.setterThrow with
    | some e => (FormEl.text t, failRes e)
    | none =>
      let t' := { t with value := val }
      match env.inputDispatchThrow with
      | some e => (FormEl.text t', failRes e)
      | none =>
        match env.changeDispatchThrow with
        | some e => (FormEl.text t', failRes e)
        | none => (FormEl.text t', okTextRes last val)

/-! ## Supporting lemmas about the string primitives -/

theorem dropWhile_dropWhile (p : Char → Bool) (l : List Char) :
    (l.dropWhile p).dropWhile p = l.dropWhile p := by
  induction l with
  | nil => simp
  | cons c r ih =>
    rw [List.dropWhile_cons]
    split
    · exact ih
    · rename_i h
      rw [List.dropWhile_cons, if_neg h]

theorem dropWhile_self_head {p : Char → Bool} {l : List Char} {c : Char} {r : List Char}
    (hfix : l.dropWhile p = l) (hl : l = c :: r) : p c = false := by
  subst hl
  rw [List.dropWhile_cons] at hfix
  by_contra hc
  rw [eq_true_of_ne_false hc, if_pos rfl] at hfix
  have := dropWhile_length_le p r
  rw [hfix] at this
  simp at this

theorem dropWhile_fix_append {l : List Char} (m : List Char)
    (hfix : l.dropWhile jsIsWs = l) (hne : l ≠ []) :
    (l ++ m).dropWhile jsIsWs = l ++ m := by
  cases hl : l with
  | nil => exact absurd hl hne
  | cons c r =>
    have hc := dropWhile_self_head hfix hl
    subst hl
    rw [List.cons_append, List.dropWhile_cons, hc]
    simp

/-- A string equal to its own trim. -/
def TrimFix (s : String) : Prop := jsTrim s = s

theorem jsTrim_data (s : String) :
    (jsTrim s).data = ((s.data.dropWhile jsIsWs).reverse.dropWhile jsIsWs).reverse := rfl

theorem jsTrim_fix {s : String} (h1 : s.data.dropWhile jsIsWs = s.data)
    (h2 : s.data.reverse.dropWhile jsIsWs = s.data.reverse) : jsTrim s = s := by
  unfold jsTrim
  rw [h1, h2]
  cases s
  simp

theorem trim_no_trail (s : String) :
    (jsTrim s).data.reverse.dropWhile jsIsWs = (jsTrim s).data.reverse := by
  rw [jsTrim_data, List.reverse_reverse]
  exact dropWhile_dropWhile _ _

theorem rev_drop_rev_fix (a : List Char) (ha : a.dropWhile jsIsWs = a) :
    ((a.reverse.dropWhile jsIsWs).reverse).dropWhile jsIsWs
      = (a.reverse.dropWhile jsIsWs).reverse := by
  cases hb : (a.reverse.dropWhile jsIsWs).reverse with
  | nil => rfl
  | cons c r =>
    have hdecomp : a = (a.reverse.dropWhile jsIsWs).reverse
        ++ (a.reverse.takeWhile jsIsWs).reverse := by
      conv_lhs => rw [← a.reverse_reverse]
      rw [← List.reverse_append, List.takeWhile_append_dropWhile]
    have hha : a = c :: (r ++ (a.reverse.takeWhile jsIsWs).reverse) := by
      conv_lhs => rw [hdecomp, hb]
      rw [List.cons_append]
    have hc : jsIsWs c = false := dropWhile_self_head ha hha
    rw [List.dropWhile_cons, hc]
    simp

theorem trim_no_lead (s : String) :
    (jsTrim s).data.dropWhile jsIsWs = (jsTrim s).data := by
  rw [jsTrim_data]
  exact rev_drop_rev_fix _ (dropWhile_dropWhile _ _)

theorem jsTrim_idem (s : String) : jsTrim (jsTrim s) = jsTrim s :=
  jsTrim_fix (trim_no_lead s) (trim_no_trail s)

theorem trimFix_trim (s : String) : TrimFix (jsTrim s) := jsTrim_idem s

theorem trimFix_iff (s : String) :
    TrimFix s ↔ (s.data.dropWhile jsIsWs = s.data ∧
      s.data.reverse.dropWhile jsIsWs = s.data.reverse) := by
  constructor
  · intro h
    constructor
    · have := trim_no_lead s; rwa [h] at this
    · have := trim_no_trail s; rwa [h] at this
  · intro ⟨h1, h2⟩
    exact jsTrim_fix h1 h2

theorem noWs_dropWhile {l : List Char} (h : ∀ c ∈ l, jsIsWs c = false) :
    l.dropWhile jsIsWs = l := by
  cases l with
  | nil => rfl
  | cons c r => rw [List.dropWhile_cons, h c (List.mem_cons_self c r)]; simp

theorem trimFix_noWs {s : String} (h : ∀ c ∈ s.data, jsIsWs c = false) : TrimFix s := by
  refine jsTrim_fix (noWs_dropWhile h) (noWs_dropWhile ?_)
  intro c hc
  exact h c (List.mem_reverse.mp hc)

theorem trimFix_empty : TrimFix "" := rfl

/-- Concatenating trim-fixed non-empty strings around arbitrary middle
text whose ends they guard keeps the result trim-fixed. -/
theorem trimFix_append {a b : String} (m : List Char)
    (ha : TrimFix a) (hb : TrimFix b) (hna : a.data ≠ []) (hnb : b.data ≠ []) :
    TrimFix ⟨a.data ++ m ++ b.data⟩ := by
  obtain ⟨ha1, _⟩ := (trimFix_iff a).mp ha
  obtain ⟨_, hb2⟩ := (trimFix_iff b).mp hb
  refine (trimFix_iff _).mpr ⟨?_, ?_⟩
  · show (a.data ++ m ++ b.data).dropWhile jsIsWs = _
    rw [List.append_assoc]
    exact dropWhile_fix_append _ ha1 hna
  · show (a.data ++ m ++ b.data).reverse.dropWhile jsIsWs = _
    rw [List.reverse_append, List.reverse_append]
    have : b.data.reverse ≠ [] := by simpa using hnb
    exact dropWhile_fix_append _ hb2 this

/-! ## Lower-casing lemmas -/

theorem char_ofNat_toNat {n : Nat} (h : n < 55296) : (Char.ofNat n).toNat = n := by
  unfold Char.ofNat
  split
  · rfl
  · rename_i hv
    exact absurd (Or.inl h) hv

theorem upperTest_iff (c : Char) :
    ('A' ≤ c ∧ c ≤ 'Z') ↔ (65 ≤ c.toNat ∧ c.toNat ≤ 90) := by
  rw [Char.le_def, Char.le_def, UInt32.le_def, UInt32.le_def]
  exact Iff.rfl

theorem jsLowerChar_toNat (c : Char) :
    (jsLowerChar c).toNat =
      if 65 ≤ c.toNat ∧ c.toNat ≤ 90 then c.toNat + 32 else c.toNat := by
  unfold jsLowerChar
  split
  · rename_i h
    rw [Bool.and_eq_true, decide_eq_true_eq, decide_eq_true_eq] at h
    have hb := (upperTest_iff c).mp ⟨h.1, h.2⟩
    rw [if_pos hb]
    exact char_ofNat_toNat (by omega)
  · rename_i h
    rw [if_neg]
    intro hb
    apply h
    have := (upperTest_iff c).mpr hb
    rw [Bool.and_eq_true, decide_eq_true_eq, decide_eq_true_eq]
    exact this

theorem jsLowerChar_eq_self {c : Char} (h : ¬(65 ≤ c.toNat ∧ c.toNat ≤ 90)) :
    jsLowerChar c = c := by
  unfold jsLowerChar
  rw [if_neg]
  intro hb
  rw [Bool.and_eq_true, decide_eq_true_eq, decide_eq_true_eq] at hb
  exact h ((upperTest_iff c).mp ⟨hb.1, hb.2⟩)

theorem jsIsWs_toNat (c : Char) :
    jsIsWs c = true ↔ (c.toNat = 32 ∨ c.toNat = 9 ∨ c.toNat = 10 ∨ c.toNat = 13 ∨
      c.toNat = 11 ∨ c.toNat = 12 ∨ c.toNat = 160) := by
  unfold jsIsWs
  simp only [Bool.or_eq_true, decide_eq_true_eq, or_assoc]

theorem jsIsWs_lowerChar (c : Char) : jsIsWs (jsLowerChar c) = jsIsWs c := by
  by_cases hc : 65 ≤ c.toNat ∧ c.toNat ≤ 90
  · have hl : (jsLowerChar c).toNat = c.toNat + 32 := by
      rw [jsLowerChar_toNat, if_pos hc]
    have h1 : jsIsWs (jsLowerChar c) = false := by
      rw [← Bool.not_eq_true, jsIsWs_toNat, hl]
      omega
    have h2 : jsIsWs c = false := by
      rw [← Bool.not_eq_true, jsIsWs_toNat]
      omega
    rw [h1, h2]
  · rw [jsLowerChar_eq_self hc]

theorem jsLowerChar_idem (c : Char) : jsLowerChar (jsLowerChar c) = jsLowerChar c := by
  by_cases hc : 65 ≤ c.toNat ∧ c.toNat ≤ 90
  · apply jsLowerChar_eq_self
    rw [jsLowerChar_toNat, if_pos hc]
    omega
  · rw [jsLowerChar_eq_self hc, jsLowerChar_eq_self hc]

theorem dropWhile_map_lower (l : List Char) :
    (l.map jsLowerChar).dropWhile jsIsWs = (l.dropWhile jsIsWs).map jsLowerChar := by
  induction l with
  | nil => rfl
  | cons c r ih =>
    rw [List.map_cons, List.dropWhile_cons, List.dropWhile_cons, jsIsWs_lowerChar]
    split
    · exact ih
    · rw [List.map_cons]

theorem jsTrim_toLower (s : String) : jsTrim (jsToLower s) = jsToLower (jsTrim s) := by
  apply congrArg String.mk
  show ((((s.data.map jsLowerChar).dropWhile jsIsWs).reverse).dropWhile jsIsWs).reverse
      = (((s.data.dropWhile jsIsWs).reverse.dropWhile jsIsWs).reverse).map jsLowerChar
  rw [dropWhile_map_lower, ← List.map_reverse, dropWhile_map_lower, ← List.map_reverse]

theorem jsToLower_idem (s : String) : jsToLower (jsToLower s) = jsToLower s := by
  apply congrArg String.mk
  show (s.data.map jsLowerChar).map jsLowerChar = s.data.map jsLowerChar
  rw [List.map_map]
  exact List.map_congr_left fun c _ => jsLowerChar_idem c

/-- The canonical-email invariant: lower-casing after trimming a string
already of the form `lower (trim x)` changes nothing. -/
theorem email_idem (x : String) :
    jsToLower (jsTrim (jsToLower (jsTrim x))) = jsToLower (jsTrim x) := by
  rw [jsTrim_toLower, jsTrim_idem, jsToLower_idem]

/-! ## Fixed points of the phone and URL normalizers -/

theorem safeStr_some (s : String) : safeStr (some s) = jsTrim s := rfl

theorem data_ne_of_ne_empty {s : String} (h : s ≠ "") : s.data ≠ [] := by
  intro hd
  exact h (String.ext hd)

theorem ne_empty_of_data {s : String} (h : s.data ≠ []) : s ≠ "" := by
  intro he
  rw [he] at h
  exact h rfl

theorem isDigit_toNat {c : Char} (h : c.isDigit = true) :
    48 ≤ c.toNat ∧ c.toNat ≤ 57 := by
  unfold Char.isDigit at h
  rw [Bool.and_eq_true, decide_eq_true_eq, decide_eq_true_eq] at h
  obtain ⟨h1, h2⟩ := h
  rw [ge_iff_le, UInt32.le_def] at h1
  rw [UInt32.le_def] at h2
  exact ⟨h1, h2⟩

theorem isDigit_not_ws {c : Char} (h : c.isDigit = true) : jsIsWs c = false := by
  obtain ⟨h1, h2⟩ := isDigit_toNat h
  rw [← Bool.not_eq_true, jsIsWs_toNat]
  omega

/-- Every value `normalizePhone` returns is empty, a digit string, or a
digit string with a leading plus. -/
theorem normalizePhone_shape (v : Option String) :
    normalizePhone v = "" ∨
      ∃ d : List Char, (∀ c ∈ d, Char.isDigit c = true) ∧
        ((normalizePhone v).data = d ∨ (normalizePhone v).data = '+' :: d) := by
  unfold normalizePhone
  by_cases h0 : safeStr v = ""
  · rw [if_pos h0]
    exact Or.inl rfl
  · rw [if_neg h0]
    refine Or.inr ⟨(safeStr v).data.filter Char.isDigit, ?_, ?_⟩
    · intro c hc
      exact (List.mem_filter.mp hc).2
    · dsimp only
      split
      · exact Or.inr rfl
      · exact Or.inl rfl

/-- Strings of the returned shape are fixed points of `normalizePhone`. -/
theorem normalizePhone_fix {r : String}
    (h : r = "" ∨ ∃ d : List Char, (∀ c ∈ d, Char.isDigit c = true) ∧
      (r.data = d ∨ r.data = '+' :: d)) :
    normalizePhone (some r) = r := by
  rcases h with h | ⟨d, hd, hshape⟩
  · rw [h]
    rfl
  · have hnoWs : ∀ c ∈ r.data, jsIsWs c = false := by
      rcases hshape with hs | hs <;> rw [hs] <;> intro c hc
      · exact isDigit_not_ws (hd c hc)
      · rcases List.mem_cons.mp hc with hc | hc
        · rw [hc]; decide
        · exact isDigit_not_ws (hd c hc)
    have htrim : jsTrim r = r := trimFix_noWs hnoWs
    have hfilter : r.data.filter Char.isDigit = d := by
      rcases hshape with hs | hs <;> rw [hs]
      · exact List.filter_eq_self.mpr hd
      · rw [List.filter_cons]
        simp only [show Char.isDigit '+' = false from by decide]
        simp only [Bool.false_eq_true, if_false]
        exact List.filter_eq_self.mpr hd
    rcases hshape with hs | hs
    · -- bare digit string
      cases hdn : d with
      | nil =>
        have : r = "" := String.ext (by rw [hs, hdn])
        rw [this]
        rfl
      | cons c cs =>
        have hne : r ≠ "" := ne_empty_of_data (by rw [hs, hdn]; simp)
        have hplus : startsWithL r.data ['+'] = false := by
          rw [hs, hdn]
          show (decide (c = '+') && startsWithL cs []) = false
          have : c ≠ '+' := by
            intro he
            have := isDigit_toNat (hd c (by rw [hdn]; exact List.mem_cons_self c cs))
            rw [he] at this
            simp at this
          simp [this]
        unfold normalizePhone
        rw [safeStr_some, htrim, if_neg hne, htrim, hplus]
        simp only [Bool.false_eq_true, if_false]
        rw [hfilter, ← hs]
    · -- plus-prefixed digit string
      have hne : r ≠ "" := ne_empty_of_data (by rw [hs]; simp)
      have hplus : startsWithL r.data ['+'] = true := by
        rw [hs]
        show (decide ('+' = '+') && startsWithL d []) = true
        cases d <;> simp [startsWithL]
      unfold normalizePhone
      rw [safeStr_some, htrim, if_neg hne, htrim, hplus]
      simp only [if_true]
      rw [hfilter, ← hs]

theorem normalizePhone_idem (v : Option String) :
    normalizePhone (some (normalizePhone v)) = normalizePhone v :=
  normalizePhone_fix (normalizePhone_shape v)

theorem startsWithL_self_append (l m : List Char) : startsWithL (l ++ m) l = true := by
  induction l with
  | nil =>
    show startsWithL m [] = true
    cases m <;> rfl
  | cons c cs ih =>
    show (decide (c = c) && startsWithL (cs ++ m) cs) = true
    simp [ih]

theorem jsToLower_append (a b : String) : jsToLower (a ++ b) = jsToLower a ++ jsToLower b := by
  apply String.ext
  show (a.data ++ b.data).map jsLowerChar = a.data.map jsLowerChar ++ b.data.map jsLowerChar
  rw [List.map_append]

theorem schemeTest_https_append (u : String) : schemeTest ("https://" ++ u) = true := by
  unfold schemeTest jsStartsWith
  rw [jsToLower_append]
  have hlow : jsToLower "https://" = "https://" := by decide
  rw [hlow]
  have : startsWithL ("https://" ++ jsToLower u).data "https://".data = true := by
    rw [show ("https://" ++ jsToLower u).data = "https://".data ++ (jsToLower u).data from rfl]
    exact startsWithL_self_append _ _
  rw [this]
  simp

theorem normalizeUrl_idem (v : Option String) :
    normalizeUrl (some (normalizeUrl v)) = normalizeUrl v := by
  unfold normalizeUrl
  by_cases h0 : safeStr v = ""
  · rw [if_pos h0]
    rfl
  · rw [if_neg h0]
    have htrim : jsTrim (safeStr v) = safeStr v := jsTrim_idem _
    by_cases hc : (!schemeTest (safeStr v) && domainTest (safeStr v)) = true
    · rw [if_pos hc]
      have hfixhead : TrimFix ("https://" ++ safeStr v) := by
        have := trimFix_append (a := "https://") (b := safeStr v) []
          rfl (trimFix_trim _) (by decide) (data_ne_of_ne_empty h0)
        simpa using this
      have hne : ("https://" ++ safeStr v : String) ≠ "" :=
        ne_empty_of_data (by rw [show ("https://" ++ safeStr v).data = "https://".data ++ (safeStr v).data from rfl]; simp)
      rw [safeStr_some, hfixhead, if_neg hne, schemeTest_https_append]
      simp
    · rw [if_neg hc, safeStr_some, htrim, if_neg h0, if_neg hc]

/-! ## Whitespace-run splitting and joining -/

theorem splitWsGo_tokens (l : List Char) :
    ∀ (acc : List Char), (∀ c ∈ acc, jsIsWs c = false) →
      ∀ t ∈ splitWsGo l acc, t.data ≠ [] ∧ ∀ c ∈ t.data, jsIsWs c = false := by
  induction l with
  | nil =>
    intro acc hacc t ht
    unfold splitWsGo at ht
    split at ht
    · exact absurd ht (List.not_mem_nil t)
    · rename_i hne
      rw [List.mem_singleton] at ht
      subst ht
      refine ⟨by simpa using fun h => hne (by simp [List.isEmpty_iff, h]), ?_⟩
      intro c hc
      exact hacc c (List.mem_reverse.mp hc)
  | cons c r ih =>
    intro acc hacc t ht
    unfold splitWsGo at ht
    split at ht
    · split at ht
      · exact ih [] (by simp) t ht
      · rename_i hne
        rcases List.mem_cons.mp ht with ht | ht
        · subst ht
          refine ⟨by simpa using fun h => hne (by simp [List.isEmpty_iff, h]), ?_⟩
          intro d hd
          exact hacc d (List.mem_reverse.mp hd)
        · exact ih [] (by simp) t ht
    · rename_i hcws
      refine ih (c :: acc) ?_ t ht
      intro d hd
      rcases List.mem_cons.mp hd with hd | hd
      · rw [hd]
        exact Bool.not_eq_true _ ▸ hcws
      · exact hacc d hd

theorem splitWs_tokens (s : String) :
    ∀ t ∈ splitWs s, t.data ≠ [] ∧ ∀ c ∈ t.data, jsIsWs c = false :=
  splitWsGo_tokens s.data [] (by simp)

theorem joinSpace_data_ne {t : String} (ts : List String) (ht : t.data ≠ []) :
    (joinSpace (t :: ts)).data ≠ [] := by
  cases ts with
  | nil => exact ht
  | cons u r =>
    show (t ++ " " ++ joinSpace (u :: r)).data ≠ []
    rw [show (t ++ " " ++ joinSpace (u :: r)).data
        = t.data ++ [' '] ++ (joinSpace (u :: r)).data from rfl]
    simp

theorem joinSpace_trimFix (ts : List String)
    (h : ∀ t ∈ ts, t.data ≠ [] ∧ TrimFix t) : TrimFix (joinSpace ts) := by
  induction ts with
  | nil => exact trimFix_empty
  | cons t rest ih =>
    cases rest with
    | nil => exact (h t (List.mem_cons_self t [])).2
    | cons u r =>
      have hj : TrimFix (joinSpace (u :: r)) :=
        ih fun x hx => h x (List.mem_cons_of_mem t hx)
      have hjne : (joinSpace (u :: r)).data ≠ [] :=
        joinSpace_data_ne r (h u (by simp)).1
      show TrimFix (t ++ " " ++ joinSpace (u :: r))
      have heq : (t ++ " " ++ joinSpace (u :: r) : String)
          = ⟨t.data ++ [' '] ++ (joinSpace (u :: r)).data⟩ := rfl
      rw [heq]
      exact trimFix_append [' '] (h t (by simp)).2 hj (h t (by simp)).1 hjne

/-! ## Structure of the two name derivations -/

theorem tokens_trimFix {s t : String} (ht : t ∈ splitWs s) : t.data ≠ [] ∧ TrimFix t :=
  ⟨(splitWs_tokens s t ht).1, trimFix_noWs (splitWs_tokens s t ht).2⟩

/-- Fields other than `fullName` are untouched by `deriveFullName`. -/
theorem deriveFullName_fields (x : Profile) :
    (deriveFullName x).firstName = x.firstName ∧
    (deriveFullName x).lastName = x.lastName ∧
    (deriveFullName x).email = x.email ∧
    (deriveFullName x).phone = x.phone ∧
    (deriveFullName x).addressLine = x.addressLine ∧
    (deriveFullName x).city = x.city ∧
    (deriveFullName x).state = x.state ∧
    (deriveFullName x).postalCode = x.postalCode ∧
    (deriveFullName x).country = x.country ∧
    (deriveFullName x).linkedin = x.linkedin ∧
    (deriveFullName x).github = x.github ∧
    (deriveFullName x).website = x.website ∧
    (deriveFullName x).dateOfBirth = x.dateOfBirth ∧
    (deriveFullName x).summary = x.summary ∧
    (deriveFullName x).coverLetter = x.coverLetter ∧
    (deriveFullName x).graduationYear = x.graduationYear ∧
    (deriveFullName x).experienceYears = x.experienceYears ∧
    (deriveFullName x).salaryExpectation = x.salaryExpectation := by
  unfold deriveFullName
  split <;> simp

/-- Fields other than `firstName`/`lastName` are untouched by
`deriveNames`. -/
theorem deriveNames_fields (x : Profile) :
    (deriveNames x).fullName = x.fullName ∧
    (deriveNames x).email = x.email ∧
    (deriveNames x).phone = x.phone ∧
    (deriveNames x).addressLine = x.addressLine ∧
    (deriveNames x).city = x.city ∧
    (deriveNames x).state = x.state ∧
    (deriveNames x).postalCode = x.postalCode ∧
    (deriveNames x).country = x.country ∧
    (deriveNames x).linkedin = x.linkedin ∧
    (deriveNames x).github = x.github ∧
    (deriveNames x).website = x.website ∧
    (deriveNames x).dateOfBirth = x.dateOfBirth ∧
    (deriveNames x).summary = x.summary ∧
    (deriveNames x).coverLetter = x.coverLetter ∧
    (deriveNames x).graduationYear = x.graduationYear ∧
    (deriveNames x).experienceYears = x.experienceYears ∧
    (deriveNames x).salaryExpectation = x.salaryExpectation := by
  unfold deriveNames
  split
  · dsimp only
    split <;> simp
  · simp

theorem deriveFullName_cases (x : Profile) :
    (¬(x.fullName = "") ∧ deriveFullName x = x) ∨
      (x.fullName = "" ∧
       (deriveFullName x).fullName
         = jsTrim (joinSpace (List.filter (fun s => !(s = "")) [x.firstName, x.lastName]))) := by
  unfold deriveFullName
  split
  · rename_i h
    exact Or.inr ⟨h, rfl⟩
  · rename_i h
    exact Or.inl ⟨h, rfl⟩

theorem deriveNames_cases (x : Profile) :
    (¬((x.firstName = "" ∨ x.lastName = "") ∧ ¬(x.fullName = "")) ∧ deriveNames x = x) ∨
    (((x.firstName = "" ∨ x.lastName = "") ∧ ¬(x.fullName = "")) ∧
      (splitWs x.fullName).length < 2 ∧ deriveNames x = x) ∨
    (((x.firstName = "" ∨ x.lastName = "") ∧ ¬(x.fullName = "")) ∧
      2 ≤ (splitWs x.fullName).length ∧
      (deriveNames x).firstName
        = (if x.firstName = "" then (splitWs x.fullName).headD "" else x.firstName) ∧
      (deriveNames x).lastName
        = (if x.lastName = "" then joinSpace ((splitWs x.fullName).drop 1) else x.lastName)) := by
  unfold deriveNames
  split
  · rename_i hcond
    simp only [Bool.and_eq_true, Bool.or_eq_true, Bool.not_eq_true',
      decide_eq_true_eq, decide_eq_false_iff_not] at hcond
    dsimp only
    split
    · rename_i hlen
      exact Or.inr (Or.inr ⟨hcond, hlen, rfl, rfl⟩)
    · rename_i hlen
      exact Or.inr (Or.inl ⟨hcond, by omega, rfl⟩)
  · rename_i hcond
    left
    refine ⟨?_, rfl⟩
    intro hc
    apply hcond
    simp only [Bool.and_eq_true, Bool.or_eq_true, Bool.not_eq_true',
      decide_eq_true_eq, decide_eq_false_iff_not]
    exact hc

theorem deriveNames_of_full_empty {x : Profile} (h : x.fullName = "") :
    deriveNames x = x := by
  unfold deriveNames
  rw [if_neg]
  simp [h]

theorem deriveFullName_fix {p : Profile}
    (hfix : p.fullName = "" → (p.firstName = "" ∧ p.lastName = "")) :
    deriveFullName p = p := by
  unfold deriveFullName
  split
  · rename_i h
    obtain ⟨h1, h2⟩ := hfix h
    have hj : jsTrim (joinSpace (List.filter (fun s => !(s = ""))
        [p.firstName, p.lastName])) = "" := by
      rw [h1, h2]
      rfl
    rw [hj, ← h]
  · rfl

theorem deriveNames_fix {p : Profile}
    (h : (p.firstName = "" ∨ p.lastName = "") → ¬(p.fullName = "") →
      (splitWs p.fullName).length < 2) :
    deriveNames p = p := by
  unfold deriveNames
  split
  · rename_i hcond
    simp only [Bool.and_eq_true, Bool.or_eq_true, Bool.not_eq_true',
      decide_eq_true_eq, decide_eq_false_iff_not] at hcond
    have hlen := h hcond.1 hcond.2
    dsimp only
    rw [if_neg (by omega)]
  · rfl

/-- The joined filtered name parts: either both parts are empty and the
join trims to empty, or the trimmed join is non-empty. -/
theorem joinFiltered_cases (f l : String) (hf : TrimFix f) (hl : TrimFix l) :
    (f = "" ∧ l = "" ∧
      jsTrim (joinSpace (List.filter (fun s => !(s = "")) [f, l])) = "") ∨
    jsTrim (joinSpace (List.filter (fun s => !(s = "")) [f, l])) ≠ "" := by
  by_cases hf0 : f = ""
  · by_cases hl0 : l = ""
    · subst hf0; subst hl0
      exact Or.inl ⟨rfl, rfl, rfl⟩
    · right
      have hlist : List.filter (fun s => !(s = "")) [f, l] = [l] := by
        subst hf0; simp [List.filter, hl0]
      rw [hlist]
      show jsTrim (joinSpace [l]) ≠ ""
      have : joinSpace [l] = l := rfl
      rw [this, hl]
      exact hl0
  · right
    by_cases hl0 : l = ""
    · have hlist : List.filter (fun s => !(s = "")) [f, l] = [f] := by
        subst hl0; simp [List.filter, hf0]
      rw [hlist]
      show jsTrim (joinSpace [f]) ≠ ""
      have : joinSpace [f] = f := rfl
      rw [this, hf]
      exact hf0
    · have hlist : List.filter (fun s => !(s = "")) [f, l] = [f, l] := by
        simp [List.filter, hf0, hl0]
      rw [hlist]
      have hfix : TrimFix (joinSpace [f, l]) := by
        refine joinSpace_trimFix [f, l] ?_
        intro t ht
        rcases List.mem_cons.mp ht with ht | ht
        · subst ht; exact ⟨data_ne_of_ne_empty hf0, hf⟩
        · rw [List.mem_singleton] at ht
          subst ht; exact ⟨data_ne_of_ne_empty hl0, hl⟩
      rw [hfix]
      exact ne_empty_of_data (joinSpace_data_ne [l] (data_ne_of_ne_empty hf0))

/-- A canonical profile is a fixed point of the field-by-field pass. -/
theorem normalizeBase_toRaw (p : Profile)
    (h1 : TrimFix p.firstName) (h2 : TrimFix p.lastName) (h3 : TrimFix p.fullName)
    (h4 : jsToLower (jsTrim p.email) = p.email)
    (h5 : normalizePhone (some p.phone) = p.phone)
    (h6 : TrimFix p.addressLine) (h7 : TrimFix p.city) (h8 : TrimFix p.state)
    (h9 : TrimFix p.postalCode) (h10 : TrimFix p.country)
    (h11 : normalizeUrl (some p.linkedin) = p.linkedin)
    (h12 : normalizeUrl (some p.github) = p.github)
    (h13 : normalizeUrl (some p.website) = p.website)
    (h14 : TrimFix p.dateOfBirth) (h15 : TrimFix p.summary) (h16 : TrimFix p.coverLetter)
    (h17 : TrimFix p.graduationYear) (h18 : TrimFix p.experienceYears)
    (h19 : TrimFix p.salaryExpectation) :
    normalizeBase p.toRaw = p :=
  Profile.ext h1 h2 h3 h4 h5 h6 h7 h8 h9 h10 h11 h12 h13 h14 h15 h16 h17 h18 h19

/-- Canonical profiles are fixed points of the whole normalizer: the key
content of idempotence, stated over the three stages. -/
theorem normalizeProfile_fixed (raw : RawProfile) (b q p : Profile)
    (hb : normalizeBase raw = b) (hq : deriveFullName b = q) (hp : deriveNames q = p) :
    normalizeProfile p.toRaw = p := by
  -- stage-one fixed points
  have hbf : TrimFix b.firstName := by rw [← hb]; exact trimFix_trim _
  have hbl : TrimFix b.lastName := by rw [← hb]; exact trimFix_trim _
  have hbfn : TrimFix b.fullName := by rw [← hb]; exact trimFix_trim _
  have hbe : jsToLower (jsTrim b.email) = b.email := by rw [← hb]; exact email_idem _
  have hbp : normalizePhone (some b.phone) = b.phone := by
    rw [← hb]; exact normalizePhone_idem _
  have hb6 : TrimFix b.addressLine := by rw [← hb]; exact trimFix_trim _
  have hb7 : TrimFix b.city := by rw [← hb]; exact trimFix_trim _
  have hb8 : TrimFix b.state := by rw [← hb]; exact trimFix_trim _
  have hb9 : TrimFix b.postalCode := by rw [← hb]; exact trimFix_trim _
  have hb10 : TrimFix b.country := by rw [← hb]; exact trimFix_trim _
  have hb11 : normalizeUrl (some b.linkedin) = b.linkedin := by
    rw [← hb]; exact normalizeUrl_idem _
  have hb12 : normalizeUrl (some b.github) = b.github := by
    rw [← hb]; exact normalizeUrl_idem _
  have hb13 : normalizeUrl (some b.website) = b.website := by
    rw [← hb]; exact normalizeUrl_idem _
  have hb14 : TrimFix b.dateOfBirth := by rw [← hb]; exact trimFix_trim _
  have hb15 : TrimFix b.summary := by rw [← hb]; exact trimFix_trim _
  have hb16 : TrimFix b.coverLetter := by rw [← hb]; exact trimFix_trim _
  have hb17 : TrimFix b.graduationYear := by rw [← hb]; exact trimFix_trim _
  have hb18 : TrimFix b.experienceYears := by rw [← hb]; exact trimFix_trim _
  have hb19 : TrimFix b.salaryExpectation := by rw [← hb]; exact trimFix_trim _
  -- stage-two field transport
  have hqfields := deriveFullName_fields b
  rw [hq] at hqfields
  obtain ⟨hqf1, hqf2, hqf3, hqf4, hqf5, hqf6, hqf7, hqf8, hqf9, hqf10, hqf11,
    hqf12, hqf13, hqf14, hqf15, hqf16, hqf17, hqf18⟩ := hqfields
  have hqfn : TrimFix q.fullName := by
    rcases deriveFullName_cases b with ⟨_, he⟩ | ⟨_, he⟩
    · rw [← hq, he]; exact hbfn
    · rw [← hq, he]; exact trimFix_trim _
  -- stage-three field transport
  have hpfields := deriveNames_fields q
  rw [hp] at hpfields
  obtain ⟨hpf1, hpf2, hpf3, hpf4, hpf5, hpf6, hpf7, hpf8, hpf9, hpf10, hpf11,
    hpf12, hpf13, hpf14, hpf15, hpf16, hpf17⟩ := hpfields
  have hcases := deriveNames_cases q
  rw [hp] at hcases
  have hpfirst : TrimFix p.firstName := by
    rcases hcases with ⟨_, he⟩ | ⟨_, _, he⟩ | ⟨_, hlen, hfs, _⟩
    · rw [he, hqf1]; exact hbf
    · rw [he, hqf1]; exact hbf
    · rw [hfs]
      split
      · cases hparts : splitWs q.fullName with
        | nil => rw [hparts] at hlen; simp at hlen
        | cons a r =>
          rw [List.headD_cons]
          exact (tokens_trimFix (s := q.fullName) (by rw [hparts]; exact List.mem_cons_self a r)).2
      · rw [hqf1]; exact hbf
  have hplast : TrimFix p.lastName := by
    rcases hcases with ⟨_, he⟩ | ⟨_, _, he⟩ | ⟨_, hlen, _, hls⟩
    · rw [he, hqf2]; exact hbl
    · rw [he, hqf2]; exact hbl
    · rw [hls]
      split
      · exact joinSpace_trimFix _ fun t ht => tokens_trimFix (List.mem_of_mem_drop ht)
      · rw [hqf2]; exact hbl
  have hpfn : TrimFix p.fullName := by rw [hpf1]; exact hqfn
  -- assemble the fixed-point facts for p
  have hbase : normalizeBase p.toRaw = p := by
    refine normalizeBase_toRaw p hpfirst hplast hpfn ?_ ?_ ?_ ?_ ?_ ?_ ?_ ?_ ?_ ?_ ?_ ?_ ?_ ?_ ?_ ?_
    · rw [hpf2, hqf3]; exact hbe
    · rw [hpf3, hqf4]; exact hbp
    · rw [hpf4, hqf5]; exact hb6
    · rw [hpf5, hqf6]; exact hb7
    · rw [hpf6, hqf7]; exact hb8
    · rw [hpf7, hqf8]; exact hb9
    · rw [hpf8, hqf9]; exact hb10
    · rw [hpf9, hqf10]; exact hb11
    · rw [hpf10, hqf11]; exact hb12
    · rw [hpf11, hqf12]; exact hb13
    · rw [hpf12, hqf13]; exact hb14
    · rw [hpf13, hqf14]; exact hb15
    · rw [hpf14, hqf15]; exact hb16
    · rw [hpf15, hqf16]; exact hb17
    · rw [hpf16, hqf17]; exact hb18
    · rw [hpf17, hqf18]; exact hb19
  -- the derivations are no-ops on p
  have hdf : deriveFullName p = p := by
    apply deriveFullName_fix
    intro hempty
    have hqfull : q.fullName = "" := by rw [← hpf1]; exact hempty
    rcases deriveFullName_cases b with ⟨hne, he⟩ | ⟨hbe0, hjoin⟩
    · have hqb : q = b := by rw [← hq, he]
      exact absurd (hqb ▸ hqfull) hne
    · have hjq : q.fullName
          = jsTrim (joinSpace (List.filter (fun s => !(s = "")) [b.firstName, b.lastName])) := by
        rw [← hq]; exact hjoin
      rcases joinFiltered_cases b.firstName b.lastName hbf hbl with ⟨hbf0, hbl0, _⟩ | hnej
      · have hpq : p = q := by rw [← hp]; exact deriveNames_of_full_empty hqfull
        constructor
        · rw [hpq, hqf1, hbf0]
        · rw [hpq, hqf2, hbl0]
      · rw [hjq] at hqfull
        exact absurd hqfull hnej
  have hdn : deriveNames p = p := by
    apply deriveNames_fix
    intro hfl hfull
    by_contra hlen2
    push_neg at hlen2
    rcases hcases with ⟨hnc, he⟩ | ⟨_, hlenq, he⟩ | ⟨_, hlenq, hfs, hls⟩
    · rw [he] at hfl hfull
      exact hnc ⟨hfl, hfull⟩
    · rw [he] at hlen2
      omega
    · -- in the rewriting branch both derived parts are non-empty
      have hfullq : p.fullName = q.fullName := hpf1
      rw [hfullq] at hlen2
      have hfirst_ne : ¬(p.firstName = "") := by
        rw [hfs]
        split
        · cases hparts : splitWs q.fullName with
          | nil => rw [hparts] at hlen2; simp at hlen2
          | cons a r =>
            rw [List.headD_cons]
            exact ne_empty_of_data
              (tokens_trimFix (s := q.fullName) (by rw [hparts]; exact List.mem_cons_self a r)).1
        · rename_i hne
          rw [hqf1] at hne ⊢
          exact hne
      have hlast_ne : ¬(p.lastName = "") := by
        rw [hls]
        split
        · cases hparts : splitWs q.fullName with
          | nil => rw [hparts] at hlen2; simp at hlen2
          | cons a r =>
            cases r with
            | nil => rw [hparts] at hlen2; simp at hlen2
            | cons a2 r2 =>
              show ¬(joinSpace ((a :: a2 :: r2).drop 1) = "")
              rw [List.drop_succ_cons, List.drop_zero]
              refine ne_empty_of_data (joinSpace_data_ne r2 ?_)
              exact (tokens_trimFix (s := q.fullName)
                (by rw [hparts]; exact List.mem_cons_of_mem a (List.mem_cons_self a2 r2))).1
        · rename_i hne
          rw [hqf2] at hne ⊢
          exact hne
      rcases hfl with hfl | hfl
      · exact hfirst_ne hfl
      · exact hlast_ne hfl
  show deriveNames (deriveFullName (normalizeBase p.toRaw)) = p
  rw [hbase, hdf, hdn]

/-! ## Argmin structure of the nearest-label pick -/

theorem pickMinDist_eq_none {l : List (String × Nat)} (h : pickMinDist l = none) :
    l = [] := by
  cases l with
  | nil => rfl
  | cons x xs =>
    exfalso
    unfold pickMinDist at h
    cases hxs : pickMinDist xs <;> rw [hxs] at h <;> dsimp only at h
    · exact Option.noConfusion h
    · split at h <;> exact Option.noConfusion h

theorem pickMinDist_spec : ∀ (l : List (String × Nat)) (c : String × Nat),
    pickMinDist l = some c → c ∈ l ∧ ∀ x ∈ l, c.2 ≤ x.2 := by
  intro l
  induction l with
  | nil => intro c h; simp [pickMinDist] at h
  | cons x xs ih =>
    intro c h
    unfold pickMinDist at h
    cases hxs : pickMinDist xs with
    | none =>
      rw [hxs] at h
      dsimp only at h
      obtain rfl := Option.some.inj h
      have hxs0 := pickMinDist_eq_none hxs
      subst hxs0
      refine ⟨List.mem_cons_self x [], ?_⟩
      intro y hy
      rw [List.mem_singleton] at hy
      rw [hy]
    | some bb =>
      rw [hxs] at h
      dsimp only at h
      obtain ⟨hmem, hmin⟩ := ih bb hxs
      by_cases hlt : bb.2 < x.2
      · rw [if_pos hlt] at h
        obtain rfl := Option.some.inj h
        refine ⟨List.mem_cons_of_mem x hmem, ?_⟩
        intro y hy
        rcases List.mem_cons.mp hy with hy | hy
        · rw [hy]; omega
        · exact hmin y hy
      · rw [if_neg hlt] at h
        obtain rfl := Option.some.inj h
        refine ⟨List.mem_cons_self x xs, ?_⟩
        intro y hy
        rcases List.mem_cons.mp hy with hy | hy
        · rw [hy]
        · have := hmin y hy; omega

/-- Membership in the candidate array. -/
theorem labelCandidates_mem (er : Rect) (labels : List LabelNode) (c : String × Nat) :
    c ∈ labelCandidates er labels ↔
      ∃ l ∈ labels, jsTrim l.text ≠ "" ∧ qualifies er l = true ∧
        c = (jsTrim l.text, labelDist er l.rect) := by
  unfold labelCandidates
  rw [List.mem_filterMap]
  constructor
  · rintro ⟨l, hl, hfl⟩
    dsimp only at hfl
    by_cases ht0 : jsTrim l.text = ""
    · rw [if_pos ht0] at hfl
      exact Option.noConfusion hfl
    · rw [if_neg ht0] at hfl
      by_cases hq : qualifies er l = true
      · rw [if_pos hq] at hfl
        cases hfl
        exact ⟨l, hl, ht0, hq, rfl⟩
      · rw [if_neg hq] at hfl
        exact Option.noConfusion hfl
  · rintro ⟨l, hl, ht0, hq, hc⟩
    refine ⟨l, hl, ?_⟩
    dsimp only
    rw [if_neg ht0, if_pos hq, hc]

/-- Every successful `setSelectValue` result carries a match tier and the
new value, and no previous value. -/
theorem setSelectValue_ok_shape (s : SelectEl) (v : String)
    (h : (setSelectValue s v).2.ok = true) :
    (∃ m, (setSelectValue s v).2.matched = some m) ∧
    (∃ w, (setSelectValue s v).2.toVal = some w) ∧
    (setSelectValue s v).2.fromVal = none := by
  unfold setSelectValue at h ⊢
  by_cases h0 : jsTrim v = ""
  · rw [if_pos h0] at h
    simp [failRes] at h
  · rw [if_neg h0] at h ⊢
    cases h1 : s.options.find? (valueMatchPred (normalizeForCompare (jsTrim v))) with
    | some o =>
      simp only [h1] at h ⊢
      exact ⟨⟨"value", rfl⟩, ⟨o.value, rfl⟩, rfl⟩
    | none =>
      simp only [h1] at h ⊢
      cases h2 : s.options.find? (textMatchPred (normalizeForCompare (jsTrim v))) with
      | some o =>
        simp only [h2] at h ⊢
        exact ⟨⟨"text", rfl⟩, ⟨o.value, rfl⟩, rfl⟩
      | none =>
        simp only [h2] at h ⊢
        cases h3 : s.options.find? (fuzzyMatchPred (normalizeForCompare (jsTrim v))) with
        | some o =>
          simp only [h3] at h ⊢
          exact ⟨⟨"fuzzy", rfl⟩, ⟨o.value, rfl⟩, rfl⟩
        | none =>
          simp only [h3] at h
          simp [failRes] at h

/-! ## The claims -/

def erC1 : Rect := ⟨0, 20, 0, 100⟩

def lblC1 : LabelNode := ⟨"Email", ⟨-220, -200, 0, 10⟩⟩

/-- Claim C1 (amended): the nearest-label search returns a label text
only for a label that qualifies (above or to the left of the element
within the 8-unit tolerance) whose distance — the minimum of the
vertical and horizontal gaps — is under the 80-unit cap and minimal
among all qualifying labels.  Because the cap applies to that minimum, a
label positioned 200 units above the element is excluded only when its
horizontal gap is also at least 80; with a smaller horizontal gap it is
returned (see the counterexample). -/
theorem claim_c1_amended (er : Rect) (labels : List LabelNode)
    (h : ¬(findNearestLabelText er labels = "")) :
    ∃ l ∈ labels, ¬(jsTrim l.text = "") ∧
      (isAbove er l.rect || isLeft er l.rect) = true ∧ labelDist er l.rect < 80 ∧
      findNearestLabelText er labels = jsTrim l.text ∧
      ∀ l2 ∈ labels, ¬(jsTrim l2.text = "") →
        (isAbove er l2.rect || isLeft er l2.rect) = true → labelDist er l2.rect < 80 →
        labelDist er l.rect ≤ labelDist er l2.rect := by
  cases hpick : pickMinDist (labelCandidates er labels) with
  | none =>
    exfalso
    apply h
    unfold findNearestLabelText
    rw [hpick]
  | some c =>
    have hres : findNearestLabelText er labels = c.1 := by
      unfold findNearestLabelText
      rw [hpick]
    obtain ⟨hmem, hmin⟩ := pickMinDist_spec _ c hpick
    rw [labelCandidates_mem] at hmem
    obtain ⟨l, hl, ht0, hq, hc⟩ := hmem
    have hqsplit := hq
    unfold qualifies at hqsplit
    rw [Bool.and_eq_true, decide_eq_true_eq] at hqsplit
    refine ⟨l, hl, ht0, hqsplit.1, hqsplit.2, ?_, ?_⟩
    · rw [hres, hc]
    · intro l2 hl2 ht2 hab2 hd2
      have hmem2 : (jsTrim l2.text, labelDist er l2.rect) ∈ labelCandidates er labels := by
        rw [labelCandidates_mem]
        refine ⟨l2, hl2, ht2, ?_, rfl⟩
        unfold qualifies
        rw [Bool.and_eq_true, decide_eq_true_eq]
        exact ⟨hab2, hd2⟩
      have hle := hmin _ hmem2
      rw [hc] at hle
      exact hle

/-- Claim C1 (counterexample): a label whose bottom edge is 200 units
above the input's top edge, but whose right edge is only 10 units from
the input's left edge, qualifies (min distance 10 < 80) and is returned
as the near-label signal, contradicting the claim that a label 200 units
above is never returned. -/
theorem claim_c1_counterexample :
    erC1.top - lblC1.rect.bottom = 200 ∧ isAbove erC1 lblC1.rect = true ∧
    vDist erC1 lblC1.rect = 200 ∧
    findNearestLabelText erC1 [lblC1] = "Email" := by decide

/-- Claim C1 (witness): the amended theorem applied to the concrete
element and label of the counterexample. -/
theorem claim_c1_witness :
    ∃ l ∈ [lblC1], ¬(jsTrim l.text = "") ∧
      (isAbove erC1 l.rect || isLeft erC1 l.rect) = true ∧ labelDist erC1 l.rect < 80 ∧
      findNearestLabelText erC1 [lblC1] = jsTrim l.text ∧
      ∀ l2 ∈ [lblC1], ¬(jsTrim l2.text = "") →
        (isAbove erC1 l2.rect || isLeft erC1 l2.rect) = true → labelDist erC1 l2.rect < 80 →
        labelDist erC1 l.rect ≤ labelDist erC1 l2.rect :=
  claim_c1_amended erC1 [lblC1] (by decide)

def selC2 : SelectEl := ⟨[⟨"a", "Alpha"⟩], "z"⟩

/-- Claim C2 (counterexample): writing into a discrete selector succeeds
with a result that carries the match tier and the new value but no
previous value, so `setNativeValue` does not return the element's
previous value on every successful write. -/
theorem claim_c2_counterexample :
    (setNativeValue (FormEl.sel selC2) "a" StepEnv.clean).2.ok = true ∧
    (setNativeValue (FormEl.sel selC2) "a" StepEnv.clean).2.fromVal = none ∧
    (setNativeValue (FormEl.sel selC2) "a" StepEnv.clean).2.toVal = some "a" := by decide

/-- Claim C2 (amended): `setNativeValue` never propagates an exception:
whichever internal step throws, the caller receives a failure result
carrying that error description.  For text-like elements a clean run
returns the previous and the new value; for discrete selectors a
successful run returns the match tier and the new value (but not the
previous value). -/
theorem claim_c2_amended :
    (∀ (t : TextEl) (v : String),
       setNativeValue (FormEl.text t) v StepEnv.clean
         = (FormEl.text { t with value := jsTrim v }, okTextRes t.value (jsTrim v))) ∧
    (∀ (t : TextEl) (v e : String) (env : StepEnv), env.setterThrow = some e →
       setNativeValue (FormEl.text t) v env = (FormEl.text t, failRes e)) ∧
    (∀ (t : TextEl) (v e : String) (env : StepEnv), env.setterThrow = none →
       env.inputDispatchThrow = some e →
       setNativeValue (FormEl.text t) v env
         = (FormEl.text { t with value := jsTrim v }, failRes e)) ∧
    (∀ (t : TextEl) (v e : String) (env : StepEnv), env.setterThrow = none →
       env.inputDispatchThrow = none → env.changeDispatchThrow = some e →
       setNativeValue (FormEl.text t) v env
         = (FormEl.text { t with value := jsTrim v }, failRes e)) ∧
    (∀ (s : SelectEl) (v : String) (env : StepEnv),
       (setNativeValue (FormEl.sel s) v env).2.ok = true →
       (∃ m, (setNativeValue (FormEl.sel s) v env).2.matched = some m) ∧
       (∃ w, (setNativeValue (FormEl.sel s) v env).2.toVal = some w) ∧
       (setNativeValue (FormEl.sel s) v env).2.fromVal = none) := by
  refine ⟨fun t v => rfl, ?_, ?_, ?_, ?_⟩
  · intro t v e env hset
    simp [setNativeValue, hset]
  · intro t v e env hset hinp
    simp [setNativeValue, hset, hinp]
  · intro t v e env hset hinp hchg
    simp [setNativeValue, hset, hinp, hchg]
  · intro s v env h
    exact setSelectValue_ok_shape s v h

/-- Claim C2 (witness): the amended theorem applied to a concrete text
element with a clean run and a concrete throwing setter. -/
theorem claim_c2_witness :
    setNativeValue (FormEl.text ⟨"input", "old"⟩) " hi " StepEnv.clean
      = (FormEl.text ⟨"input", "hi"⟩, okTextRes "old" "hi") ∧
    setNativeValue (FormEl.text ⟨"input", "old"⟩) "x" ⟨some "TypeError: boom", none, none⟩
      = (FormEl.text ⟨"input", "old"⟩, failRes "TypeError: boom") := by
  constructor
  · have h := claim_c2_amended.1 ⟨"input", "old"⟩ " hi "
    rw [h]
    decide
  · exact claim_c2_amended.2.1 ⟨"input", "old"⟩ "x" "TypeError: boom"
      ⟨some "TypeError: boom", none, none⟩ rfl

def rawC3single : RawProfile := { RawProfile.empty with fullName := some "Ada" }

def rawC3full : RawProfile := { RawProfile.empty with fullName := some "Ada Lovelace" }

/-- Claim C3 (counterexample): a raw profile with empty `firstName`, empty
`lastName` and the single-token `fullName` "Ada" keeps `firstName` empty
after normalization — the split never runs for a one-token full name,
contradicting the claim that it holds for every non-empty `fullName`
including a single token. -/
theorem claim_c3_counterexample :
    rawC3single.firstName = none ∧ rawC3single.fullName = some "Ada" ∧
    (normalizeProfile rawC3single).fullName = "Ada" ∧
    (normalizeProfile rawC3single).firstName = "" ∧
    (normalizeProfile rawC3single).lastName = "" := by decide

/-- Claim C3 (amended): when `firstName` or `lastName` is empty but
`fullName` is non-empty AND `fullName` splits into at least two
whitespace-separated tokens, `normalizeProfile` sets the empty
`firstName` to the first token and the empty `lastName` to the remaining
tokens joined with spaces, never overwriting a non-empty value; when the
split yields fewer than two tokens both parts are left unchanged.
(`q` names the profile after trimming and the fullName derivation.) -/
theorem claim_c3_amended (raw : RawProfile) (q : Profile)
    (hq : deriveFullName (normalizeBase raw) = q) :
    (¬(q.firstName = "") → (normalizeProfile raw).firstName = q.firstName) ∧
    (¬(q.lastName = "") → (normalizeProfile raw).lastName = q.lastName) ∧
    ((splitWs q.fullName).length < 2 →
      (normalizeProfile raw).firstName = q.firstName ∧
      (normalizeProfile raw).lastName = q.lastName) ∧
    ((q.firstName = "" ∨ q.lastName = "") → ¬(q.fullName = "") →
      2 ≤ (splitWs q.fullName).length →
      (normalizeProfile raw).firstName
        = (if q.firstName = "" then (splitWs q.fullName).headD "" else q.firstName) ∧
      (normalizeProfile raw).lastName
        = (if q.lastName = "" then joinSpace ((splitWs q.fullName).drop 1)
           else q.lastName)) := by
  have hnp : normalizeProfile raw = deriveNames q := by
    rw [normalizeProfile, hq]
  rw [hnp]
  rcases deriveNames_cases q with ⟨hnc, he⟩ | ⟨hc, hlen, he⟩ | ⟨hc, hlen, hfs, hls⟩
  · refine ⟨fun _ => by rw [he], fun _ => by rw [he], fun _ => by rw [he]; exact ⟨rfl, rfl⟩, ?_⟩
    intro hor hfull _
    exact absurd ⟨hor, hfull⟩ hnc
  · refine ⟨fun _ => by rw [he], fun _ => by rw [he], fun _ => by rw [he]; exact ⟨rfl, rfl⟩, ?_⟩
    intro _ _ hlen2
    omega
  · refine ⟨?_, ?_, ?_, fun _ _ _ => ⟨hfs, hls⟩⟩
    · intro hf
      rw [hfs, if_neg hf]
    · intro hl
      rw [hls, if_neg hl]
    · intro hlen2
      omega

/-- Claim C3 (witness): the amended theorem applied to the raw profile
whose fullName is the two-token "Ada Lovelace". -/
theorem claim_c3_witness :
    (normalizeProfile rawC3full).firstName = "Ada" ∧
    (normalizeProfile rawC3full).lastName = "Lovelace" := by
  have h := (claim_c3_amended rawC3full (deriveFullName (normalizeBase rawC3full)) rfl).2.2.2
    (by decide) (by decide) (by decide)
  constructor
  · rw [h.1]
    decide
  · rw [h.2]
    decide

def usSel4 : SelectEl := ⟨[⟨"United States", "United States"⟩, ⟨"Canada", "Canada"⟩], ""⟩

def trSel4 : SelectEl := ⟨[⟨"TR", "Republic of Turkey"⟩], ""⟩

/-- Claim C4: `setSelectValue` tries normalized value match, then
normalized text match, then bidirectional substring containment, in that
order, stopping at the first matching option; with no match it fails and
does not mutate the selector.  Concretely, desired "usa" against options
"United States"/"Canada" matches nothing and leaves the selection
unchanged, while desired "Turkey" against option text "Republic of
Turkey" matches via containment. -/
theorem claim_c4 :
    (∀ (s : SelectEl) (d : String) (o : SelectOpt), ¬(jsTrim d = "") →
       s.options.find? (valueMatchPred (normalizeForCompare (jsTrim d))) = some o →
       setSelectValue s d = ({ s with value := o.value }, okSelRes "value" o.value)) ∧
    (∀ (s : SelectEl) (d : String) (o : SelectOpt), ¬(jsTrim d = "") →
       s.options.find? (valueMatchPred (normalizeForCompare (jsTrim d))) = none →
       s.options.find? (textMatchPred (normalizeForCompare (jsTrim d))) = some o →
       setSelectValue s d = ({ s with value := o.value }, okSelRes "text" o.value)) ∧
    (∀ (s : SelectEl) (d : String) (o : SelectOpt), ¬(jsTrim d = "") →
       s.options.find? (valueMatchPred (normalizeForCompare (jsTrim d))) = none →
       s.options.find? (textMatchPred (normalizeForCompare (jsTrim d))) = none →
       s.options.find? (fuzzyMatchPred (normalizeForCompare (jsTrim d))) = some o →
       setSelectValue s d = ({ s with value := o.value }, okSelRes "fuzzy" o.value)) ∧
    (∀ (s : SelectEl) (d : String), ¬(jsTrim d = "") →
       s.options.find? (valueMatchPred (normalizeForCompare (jsTrim d))) = none →
       s.options.find? (textMatchPred (normalizeForCompare (jsTrim d))) = none →
       s.options.find? (fuzzyMatchPred (normalizeForCompare (jsTrim d))) = none →
       setSelectValue s d = (s, failRes "no option match")) ∧
    setSelectValue usSel4 "usa" = (usSel4, failRes "no option match") ∧
    setSelectValue trSel4 "Turkey" = ({ trSel4 with value := "TR" }, okSelRes "fuzzy" "TR") := by
  refine ⟨?_, ?_, ?_, ?_, by decide, by decide⟩
  · intro s d o h0 h1
    unfold setSelectValue
    rw [if_neg h0]
    simp only [h1]
  · intro s d o h0 h1 h2
    unfold setSelectValue
    rw [if_neg h0]
    simp only [h1, h2]
  · intro s d o h0 h1 h2 h3
    unfold setSelectValue
    rw [if_neg h0]
    simp only [h1, h2, h3]
  · intro s d h0 h1 h2 h3
    unfold setSelectValue
    rw [if_neg h0]
    simp only [h1, h2, h3]

/-- Claim C4 (witness): the first tier applied to a concrete selector
and the desired value "Canada". -/
theorem claim_c4_witness :
    setSelectValue usSel4 "Canada"
      = ({ usSel4 with value := "Canada" }, okSelRes "value" "Canada") :=
  claim_c4.1 usSel4 "Canada" ⟨"Canada", "Canada"⟩ (by decide) (by decide)

def elC5 : CandidateElem := { CandidateElem.blank with autocompleteAttr := some "email" }

def elC5proto : CandidateElem :=
  { CandidateElem.blank with autocompleteAttr := some "constructor" }

/-- Claim C5 (counterexample): the autocomplete value "constructor" is
not a key of the fixed mapping table, yet the JavaScript property read
`AUTOCOMPLETE_MAP["constructor"]` resolves to the inherited (truthy)
`Object.prototype.constructor`, so the program takes the
`else if (mapped)` branch and subtracts 8 — an unmapped value does not
contribute 0. -/
theorem claim_c5_counterexample :
    AUTOCOMPLETE_MAP.lookup (acKey elC5proto) = none ∧
    ¬(acKey elC5proto = "") ∧
    (acStage elC5proto "email").1 = -8 ∧
    (scoreFieldType elC5proto "email").score
      = -8 + (typeStage elC5proto "email").1 + (signalsStage elC5proto "email").1 +
        (patternStage elC5proto "email").1 + (searchStage elC5proto).1 := by
  refine ⟨by decide, by decide, by decide, ?_⟩
  show (acStage elC5proto "email").1 + _ + _ + _ + _ = _
  rw [show (acStage elC5proto "email").1 = -8 from by decide]

/-- Claim C5 (amended): for an element with a non-empty (normalized)
autocomplete attribute, the autocomplete term of `scoreFieldType`
contributes exactly +30 when the attribute value is an own key of the
mapping table mapped to the field type under test, exactly −8 when it
is an own key mapped to a different field type or when it collides with
a lower-case inherited `Object.prototype` property name ("constructor",
"__proto__"), and 0 otherwise; `scoreFieldType`'s score is the sum of
this term and the four remaining stages. -/
theorem claim_c5_amended (el : CandidateElem) (ft : String) (h : ¬(acKey el = "")) :
    ((∀ m, AUTOCOMPLETE_MAP.lookup (acKey el) = some m → m = ft →
        (acStage el ft).1 = 30) ∧
     (∀ m, AUTOCOMPLETE_MAP.lookup (acKey el) = some m → ¬(m = ft) →
        (acStage el ft).1 = -8) ∧
     (AUTOCOMPLETE_MAP.lookup (acKey el) = none →
        PROTO_KEYS.contains (acKey el) = true → (acStage el ft).1 = -8) ∧
     (AUTOCOMPLETE_MAP.lookup (acKey el) = none →
        PROTO_KEYS.contains (acKey el) = false → (acStage el ft).1 = 0)) ∧
    (scoreFieldType el ft).score
      = (acStage el ft).1 + (typeStage el ft).1 + (signalsStage el ft).1 +
        (patternStage el ft).1 + (searchStage el).1 := by
  refine ⟨⟨?_, ?_, ?_, ?_⟩, rfl⟩
  · intro m hm heq
    have hget : acMapGet (acKey el) = AcLookup.own m := by
      unfold acMapGet
      rw [hm]
    unfold acStage
    rw [if_neg h]
    simp only [hget]
    rw [if_pos heq]
  · intro m hm hne
    have hget : acMapGet (acKey el) = AcLookup.own m := by
      unfold acMapGet
      rw [hm]
    unfold acStage
    rw [if_neg h]
    simp only [hget]
    rw [if_neg hne]
  · intro hm hproto
    have hget : acMapGet (acKey el) = AcLookup.inheritedMember := by
      unfold acMapGet
      rw [hm]
      dsimp only
      rw [if_pos hproto]
    unfold acStage
    rw [if_neg h]
    simp only [hget]
  · intro hm hproto
    have hget : acMapGet (acKey el) = AcLookup.absent := by
      unfold acMapGet
      rw [hm]
      dsimp only
      rw [hproto]
      rfl
    unfold acStage
    rw [if_neg h]
    simp only [hget]

/-- Claim C5 (witness): `autocomplete="email"` gives +30 for the email
field type and −8 for the city field type, and `autocomplete=
"constructor"` gives −8 through the inherited-member branch. -/
theorem claim_c5_witness :
    (acStage elC5 "email").1 = 30 ∧ (acStage elC5 "city").1 = -8 ∧
    (acStage elC5proto "city").1 = -8 :=
  ⟨(claim_c5_amended elC5 "email" (by decide)).1.1 "email" (by decide) rfl,
   (claim_c5_amended elC5 "city" (by decide)).1.2.1 "email" (by decide) (by decide),
   (claim_c5_amended elC5proto "city" (by decide)).1.2.2.1 (by decide) (by decide)⟩

def elC6 : CandidateElem := { CandidateElem.blank with labelWrapText := some "Name" }

/-- Claim C6: an element whose only textual signal is the exact label
text "Name" (no autocomplete attribute) scores strictly higher for the
fullName field type than for the city field type: the bare name token
contributes +3 (synonym) +3 (ambiguity bonus) locally for fullName but
−2 locally for city. -/
theorem claim_c6 (el : CandidateElem) (w : Int) (src : String)
    (hsig : getElementTextSignals el = [⟨"Name", w, src⟩]) (hw : 1 ≤ w)
    (hac : acKey el = "") :
    (scoreFieldType el "city").score < (scoreFieldType el "fullName").score := by
  have h6 : signalLocal "fullName" (tokenize "Name") = 6 := by decide
  have h2 : signalLocal "city" (tokenize "Name") = -2 := by decide
  have hsf : (signalsStage el "fullName").1 = 6 * w := by
    unfold signalsStage
    rw [hsig]
    simp [h6]
  have hsc : (signalsStage el "city").1 = -2 * w := by
    unfold signalsStage
    rw [hsig]
    simp [h2]
  have hacf : (acStage el "fullName").1 = 0 := by
    unfold acStage
    rw [if_pos hac]
  have hacc : (acStage el "city").1 = 0 := by
    unfold acStage
    rw [if_pos hac]
  have htf : (typeStage el "fullName").1 = 0 := by
    by_cases hi : jsToLower el.tagName = "input"
    · simp [typeStage, hi, combineTerm]
    · simp [typeStage, hi]
  have htc : (typeStage el "city").1 = 0 := by
    by_cases hi : jsToLower el.tagName = "input"
    · simp [typeStage, hi, combineTerm]
    · simp [typeStage, hi]
  have hpf : (patternStage el "fullName").1 = 0 := by
    by_cases hn : nmKey el = ""
    · simp [patternStage, hn]
    · simp [patternStage, hn, combineTerm]
  have hpc : (patternStage el "city").1 = 0 := by
    by_cases hn : nmKey el = ""
    · simp [patternStage, hn]
    · simp [patternStage, hn, combineTerm]
  show (acStage el "city").1 + (typeStage el "city").1 + (signalsStage el "city").1 +
      (patternStage el "city").1 + (searchStage el).1
    < (acStage el "fullName").1 + (typeStage el "fullName").1 +
      (signalsStage el "fullName").1 + (patternStage el "fullName").1 + (searchStage el).1
  rw [hsf, hsc, hacf, hacc, htf, htc, hpf, hpc]
  omega

/-- Claim C6 (witness): the theorem at the concrete element wrapped in a
label reading "Name". -/
theorem claim_c6_witness :
    (scoreFieldType elC6 "city").score < (scoreFieldType elC6 "fullName").score :=
  claim_c6 elC6 9 "label-wrap" (by decide) (by decide) (by decide)

def elC7pw : CandidateElem := { CandidateElem.blank with typeAttr := some "password" }

def elC7ta : CandidateElem := { CandidateElem.blank with tagName := "TEXTAREA" }

/-- Claim C7: the fillability filter accepts text areas and discrete
selectors, rejects exactly the inputs whose declared (lower-cased)
sub-kind is password, hidden, file, submit, button, reset, checkbox or
radio, and accepts every other input sub-kind (a missing sub-kind
defaults to text). -/
theorem claim_c7 :
    (∀ (el : CandidateElem) (t : String), jsToLower el.tagName = "input" →
       el.typeAttr = some t →
       (isFillableElement el = true ↔
         ¬(jsToLower t ∈ ["password", "hidden", "file", "submit", "button", "reset",
            "checkbox", "radio"]))) ∧
    (∀ el : CandidateElem, jsToLower el.tagName = "input" → el.typeAttr = none →
       isFillableElement el = true) ∧
    (∀ el : CandidateElem,
       jsToLower el.tagName = "textarea" ∨ jsToLower el.tagName = "select" →
       isFillableElement el = true) := by
  refine ⟨?_, ?_, ?_⟩
  · intro el t htag hty
    by_cases ht0 : t = ""
    · subst ht0
      simp only [isFillableElement, htag, hty]
      decide
    · simp only [isFillableElement, htag, hty]
      rw [if_neg ht0]
      generalize jsToLower t = y
      by_cases hm : y ∈ (["password", "hidden", "file", "submit", "button", "reset",
          "checkbox", "radio"] : List String)
      · simp only [List.mem_cons, List.not_mem_nil, or_false] at hm
        rcases hm with h | h | h | h | h | h | h | h <;> simp [h]
      · have hm2 := hm
        simp only [List.mem_cons, List.not_mem_nil, or_false, not_or] at hm2
        obtain ⟨n1, n2, n3, n4, n5, n6, n7, n8⟩ := hm2
        simp [n1, n2, n3, n4, n5, n6, n7, n8, hm]
  · intro el htag hty
    simp only [isFillableElement, htag, hty]
    decide
  · intro el htag
    rcases htag with htag | htag <;> simp [isFillableElement, htag]

/-- Claim C7 (witness): a password input is rejected; a textarea is
accepted. -/
theorem claim_c7_witness :
    ¬(isFillableElement elC7pw = true) ∧ isFillableElement elC7ta = true := by
  constructor
  · intro hfill
    have hmem := (claim_c7.1 elC7pw "password" (by decide) rfl).mp hfill
    exact hmem (by decide)
  · exact claim_c7.2.2 elC7ta (Or.inl (by decide))

def adaRaw : RawProfile :=
  { RawProfile.empty with
      firstName := some "Ada", lastName := some "Lovelace", email := some "ADA@X.COM" }

/-- Claim C8: normalizing the raw profile with firstName "Ada", lastName
"Lovelace" and email "ADA@X.COM" yields the canonical profile with
fullName "Ada Lovelace", the email lower-cased, and every other field
empty. -/
theorem claim_c8 :
    normalizeProfile adaRaw =
      { firstName := "Ada", lastName := "Lovelace", fullName := "Ada Lovelace",
        email := "ada@x.com", phone := "", addressLine := "", city := "", state := "",
        postalCode := "", country := "", linkedin := "", github := "", website := "",
        dateOfBirth := "", summary := "", coverLetter := "", graduationYear := "",
        experienceYears := "", salaryExpectation := "" } := by decide

/-- Claim C9: `normalizeProfile` is idempotent — re-normalizing a
canonical profile changes no field, including phone, the URL fields and
the derived name fields. -/
theorem claim_c9 (raw : RawProfile) :
    normalizeProfile ((normalizeProfile raw).toRaw) = normalizeProfile raw :=
  normalizeProfile_fixed raw (normalizeBase raw) (deriveFullName (normalizeBase raw))
    (normalizeProfile raw) rfl rfl rfl

def selC10 : SelectEl := ⟨[⟨"a", "Alpha"⟩], "cur"⟩

/-- Claim C10: an empty or whitespace-only desired value makes
`setSelectValue` fail with "empty desired value" and leave the selector
unchanged, while for a text-like element the same call writes the empty
string (the trimmed value) into the element's value. -/
theorem claim_c10 :
    (∀ (s : SelectEl) (d : String), jsTrim d = "" →
       setSelectValue s d = (s, failRes "empty desired value")) ∧
    (∀ (t : TextEl) (d : String), jsTrim d = "" →
       setNativeValue (FormEl.text t) d StepEnv.clean
         = (FormEl.text { t with value := "" }, okTextRes t.value "")) := by
  constructor
  · intro s d h
    unfold setSelectValue
    rw [if_pos h]
  · intro t d h
    have hrun : setNativeValue (FormEl.text t) d StepEnv.clean
        = (FormEl.text { t with value := jsTrim d }, okTextRes t.value (jsTrim d)) := rfl
    rw [hrun, h]

/-- Claim C10 (witness): the theorem applied to a whitespace-only desired
value on a concrete selector and a concrete text input. -/
theorem claim_c10_witness :
    setSelectValue selC10 "  " = (selC10, failRes "empty desired value") ∧
    setNativeValue (FormEl.text ⟨"input", "old"⟩) "  " StepEnv.clean
      = (FormEl.text ⟨"input", ""⟩, okTextRes "old" "") :=
  ⟨claim_c10.1 selC10 "  " (by decide), claim_c10.2 ⟨"input", "old"⟩ "  " (by decide)⟩

end CVA
